import Mathlib

/-!
# Ray-trace PNG utility (`ray_trace_util.c`, `ray_trace_util.h`)

A shallow embedding of the three functions of the repository:

* `pixel_at`          (ray_trace_util.c, lines 6-9)
* `save_png_to_file`  (ray_trace_util.c, lines 11-87)
* `save_render`       (ray_trace_util.c, lines 89-107)

Conventions of the embedding.

* A block of memory is a `List`; a pointer into it is an `Int` offset from its
  start.  A load or store outside the block is undefined behaviour in C and is
  `none` here.
* `int` is 32 bits, `long long` and `size_t` are 64 bits (LP64).  Arithmetic on
  them is arithmetic on `Int`/`Nat` followed by an explicit reduction.
* Calls into libc / libpng are recorded, in order, in a log of `Call`s.  An
  environment says which of these calls fail and what fresh memory contains.
* A `for` loop whose bound does not change is a recursion on the number of
  iterations left.

The definitions come first (the embedding, then the descriptions used in the
statements), the theorems after them; the theorem of a claim `Cn` names it in
its comment.
-/

namespace RayTraceUtil

/-! ## Machine integers -/

/-- An `uint8_t` / `unsigned char` / `png_byte` value. -/
abbrev uint8_t := Fin 256

/-- Number of values of a `size_t` (64 bits). -/
def SIZE_MOD : Nat := 18446744073709551616

/-- Largest `int`. -/
def INT_MAX : Nat := 2147483647

/-- Reduction of a mathematical integer to an `int` (32-bit two's complement).
This is the result of `int` arithmetic with wrap-around and of the conversion
of a wider integer to `int`. -/
def wrap_int (z : Int) : Int := (z + 2147483648) % 4294967296 - 2147483648

/-- Reduction of a mathematical integer to a `long long` (64-bit two's complement). -/
def wrap_llong (z : Int) : Int :=
  (z + 9223372036854775808) % 18446744073709551616 - 9223372036854775808

/-- Conversion of a signed integer to `size_t`: reduction modulo `2^64`. -/
def to_size_t (z : Int) : Nat := (z % 18446744073709551616).toNat

/-! ## Data model (`ray_trace_util.h`) -/

/-- The struct `image_size_t`: two `int` fields. -/
structure image_size_t where
  width : Int
  height : Int
deriving DecidableEq

/-- The struct `pixel_t`: three `uint8_t` channels. -/
structure pixel_t where
  red : uint8_t
  green : uint8_t
  blue : uint8_t
deriving DecidableEq

/-- Value of `sizeof (pixel_t)`. -/
def sizeof_pixel_t : Nat := 3

/-- The struct `bitmap_t`.  `pixels` is the block the C field points to;
`width` and `height` are `size_t`. -/
structure bitmap_t where
  pixels : List pixel_t
  width : Nat
  height : Nat
deriving DecidableEq

/-! ## Memory -/

/-- Load of the element at signed offset `off` of a block. -/
def load {α : Type} (mem : List α) (off : Int) : Option α :=
  if 0 ≤ off then mem[off.toNat]? else none

/-- Store of `v` at signed offset `off` of a block. -/
def store {α : Type} (mem : List α) (off : Int) (v : α) : Option (List α) :=
  if 0 ≤ off ∧ off.toNat < mem.length then some (mem.set off.toNat v) else none

/-- Store to one field of the struct at signed offset `off` of a block: the
other fields of that element keep their value. -/
def store_field {α : Type} (mem : List α) (off : Int) (f : α → α) : Option (List α) :=
  match load mem off with
  | none => none
  | some old => store mem off (f old)

/-- Contents of a fresh block of `size` bytes seen as `pixel_t` cells; `junk`
gives the indeterminate bytes the allocator leaves in it. -/
def malloc_pixels (junk : Nat → uint8_t) (size : Nat) : List pixel_t :=
  (List.range (size / sizeof_pixel_t)).map
    fun k => { red := junk (3 * k), green := junk (3 * k + 1), blue := junk (3 * k + 2) }

/-- Contents of a fresh block of `size` bytes. -/
def malloc_bytes (junk : Nat → uint8_t) (size : Nat) : List uint8_t :=
  (List.range size).map junk

/-! ## Loops -/

/-- The loop `for (x = x0; x < bound; x++) body`, `x` of type `size_t`, with
`n = bound - x0` iterations left; a body that leaves its blocks ends the run.
The counter stays below `bound`, so `x++` never wraps around. -/
def for_loop {σ : Type} (body : Nat → σ → Option σ) : Nat → Nat → σ → Option σ
  | 0, _, st => some st
  | n + 1, x, st =>
    match body x st with
    | none => none
    | some st1 => for_loop body n (x + 1) st1

/-- The loop `for (int x = x0; x < bound; x++) body`, with `n = bound - x0`
iterations left (none when `bound <= x0`).  The counter stays below `bound`,
so `x++` never overflows. -/
def for_loop_int {σ : Type} (body : Int → σ → Option σ) : Nat → Int → σ → Option σ
  | 0, _, st => some st
  | n + 1, x, st =>
    match body x st with
    | none => none
    | some st1 => for_loop_int body n (x + 1) st1

/-! ## `pixel_at` -/

/-- The function `pixel_at`, line 8: `bitmap->pixels + bitmap->width * y + x`.
The result is the offset, in pixels, of the returned pointer from
`bitmap->pixels`.  `bitmap->width * y` is a `size_t` product (`y` is converted
to `size_t`); `x` is added as a signed `int`. -/
def pixel_at (bitmap : bitmap_t) (x y : Int) : Int :=
  ((bitmap.width * to_size_t y % SIZE_MOD : Nat) : Int) + x

/-! ## `save_render`: the fill loop -/

/-- Value of `hw`, line 96: `long long int hw = image_size.height * image_size.width;`.
The product is an `int` product; only its result is widened. -/
def save_render_hw (image_size : image_size_t) : Int :=
  wrap_int (image_size.height * image_size.width)

/-- Index of the red byte, line 100: `j * image_size.height + i`, in `int`. -/
def red_index (image_size : image_size_t) (i j : Int) : Int :=
  wrap_int (wrap_int (j * image_size.height) + i)

/-- Index of the green byte, line 101: `j * image_size.height + i + hw`; the
last addition is a `long long` addition. -/
def green_index (image_size : image_size_t) (hw : Int) (i j : Int) : Int :=
  wrap_llong (red_index image_size i j + hw)

/-- Index of the blue byte, line 102: `j * image_size.height + i + 2*hw`; the
product and the last addition are `long long` operations. -/
def blue_index (image_size : image_size_t) (hw : Int) (i j : Int) : Int :=
  wrap_llong (red_index image_size i j + wrap_llong (2 * hw))

/-- Lines 99-102, one execution of the body of the inner loop.  The state is
the bitmap together with the list of pixel slots stored to so far (one entry
per executed body, oldest first). -/
def save_render_body (img : List uint8_t) (image_size : image_size_t) (hw : Int)
    (i j : Int) (st : bitmap_t × List Int) : Option (bitmap_t × List Int) := do
  let pixel := pixel_at st.1 j i
  let r ← load img (red_index image_size i j)
  let px ← store_field st.1.pixels pixel (fun p => { p with red := r })
  let g ← load img (green_index image_size hw i j)
  let px ← store_field px pixel (fun p => { p with green := g })
  let b ← load img (blue_index image_size hw i j)
  let px ← store_field px pixel (fun p => { p with blue := b })
  pure ({ st.1 with pixels := px }, st.2 ++ [pixel])

/-- Line 98, `for (int j = ...; j < image_size.width; j++)`: the inner loop
for row `i`, run from column `0`. -/
def save_render_cols (img : List uint8_t) (image_size : image_size_t) (hw : Int) (i : Int)
    (st : bitmap_t × List Int) : Option (bitmap_t × List Int) :=
  for_loop_int (save_render_body img image_size hw i) image_size.width.toNat 0 st

/-- Line 97, `for (int i = ...; i < image_size.height; i++)`: the outer loop,
run from row `0`. -/
def save_render_rows (img : List uint8_t) (image_size : image_size_t) (hw : Int)
    (st : bitmap_t × List Int) : Option (bitmap_t × List Int) :=
  for_loop_int (save_render_cols img image_size hw) image_size.height.toNat 0 st

/-- Size passed to `malloc`, line 94: `sizeof(pixel_t) * bitmap.width * bitmap.height`,
a `size_t` expression. -/
def save_render_alloc_size (width height : Nat) : Nat :=
  sizeof_pixel_t * width % SIZE_MOD * height % SIZE_MOD

/-- Lines 90-105 of `save_render`: the bitmap is set up on the block `pixels`
returned by `malloc` and the two nested loops run.  The result is the filled
bitmap and the list of slots stored to, or `none` when a load or store falls
outside its block. -/
def save_render_fill (pixels : List pixel_t) (img : List uint8_t) (image_size : image_size_t) :
    Option (bitmap_t × List Int) :=
  let bitmap : bitmap_t :=
    { pixels := pixels
      width := to_size_t image_size.width
      height := to_size_t image_size.height }
  let hw := save_render_hw image_size
  save_render_rows img image_size hw (bitmap, [])

/-! ## Calls into libc and libpng -/

/-- The blocks handed to `free` / `png_free`. -/
inductive Ptr where
  | pixels
  | row_pointers
  | row (y : Nat)
deriving DecidableEq

/-- A call into libc or libpng, with the arguments that matter. -/
inductive Call where
  | malloc (size : Nat)
  | free (p : Ptr)
  | fopen (path : String) (mode : String)
  | fclose
  | png_create_write_struct
  | png_create_info_struct
  | png_set_IHDR (width height : Nat)
      (bit_depth color_type interlace_method compression_method filter_method : Int)
  | png_malloc (size : Nat)
  | png_init_io
  | png_set_rows (row_pointers : List (List uint8_t))
  | png_write_png (transforms : Int)
  | png_free (p : Ptr)
deriving DecidableEq

/-- What the program cannot control: `fails k` says whether the call logged
at position `k` fails (returns `NULL`, or raises a libpng error), and `junk`
gives the bytes found in freshly allocated memory. -/
structure Env where
  fails : Nat → Bool
  junk : Nat → uint8_t

/-- How a run ends: it returns a value, the process is terminated by
`abort()`, or the behaviour is undefined (a load or store outside a block). -/
inductive Outcome (α : Type) where
  | ret (a : α)
  | abort
  | undef
deriving DecidableEq

/-- A computation: from an environment and the log of calls made so far to an
outcome and the extended log. -/
def M (α : Type) : Type := Env → List Call → Outcome α × List Call

/-- Return of a value, no call made. -/
def M.pure {α : Type} (a : α) : M α := fun _ log => (Outcome.ret a, log)

/-- Sequencing: the second computation runs only when the first returned. -/
def M.bind {α β : Type} (m : M α) (f : α → M β) : M β := fun env log =>
  match m env log with
  | (Outcome.ret a, log1) => f a env log1
  | (Outcome.abort, log1) => (Outcome.abort, log1)
  | (Outcome.undef, log1) => (Outcome.undef, log1)

instance : Monad M where
  pure := M.pure
  bind := M.bind

/-- A call into a library: it is appended to the log; the result tells
whether it succeeded. -/
def call (c : Call) : M Bool := fun env log => (Outcome.ret (!env.fails log.length), log ++ [c])

/-- The libc function `abort()`. -/
def abort {α : Type} : M α := fun _ log => (Outcome.abort, log)

/-- A load or store outside its block. -/
def undefined_behaviour {α : Type} : M α := fun _ log => (Outcome.undef, log)

/-- The bytes found in fresh memory. -/
def fresh_bytes : M (Nat → uint8_t) := fun env log => (Outcome.ret env.junk, log)

/-- The statement `if (! p) { abort (); }`, where `ok` tells whether `p` is
non-null. -/
def abort_if_null (ok : Bool) : M Unit :=
  if !ok then abort else pure ()

/-- A call whose result the program does not look at. -/
def call_ignored (c : Call) : M Unit := fun _ log => (Outcome.ret (), log ++ [c])

/-- A libpng call made after `setjmp (png_jmpbuf (png_ptr))` (line 45): when
it raises an error, control returns to the `setjmp` and `abort()` is called. -/
def png_call (c : Call) : M Unit := do
  let ok ← call c
  abort_if_null ok

/-- The libc function `malloc`: a fresh block of `size` bytes, seen as
`pixel_t` cells, or the null pointer (a block without any cell) on failure. -/
def malloc (size : Nat) : M (List pixel_t) := do
  let ok ← call (Call.malloc size)
  let junk ← fresh_bytes
  pure (if ok then malloc_pixels junk size else [])

/-- The libc function `free`. -/
def free (p : Ptr) : M Unit := call_ignored (Call.free p)

/-- The libpng function `png_malloc` for a block of bytes; it raises a libpng
error on failure. -/
def png_malloc (size : Nat) : M (List uint8_t) := do
  png_call (Call.png_malloc size)
  let junk ← fresh_bytes
  pure (malloc_bytes junk size)

/-- The libpng function `png_malloc` for the table of row pointers: `size / 8`
slots, each holding an indeterminate pointer (a block without any byte). -/
def png_malloc_table (size : Nat) : M (List (List uint8_t)) := do
  png_call (Call.png_malloc size)
  pure (List.replicate (size / 8) [])

/-- The loop `for (y = y0; y < bound; y++) body`, `y` of type `size_t`, with
`n = bound - y0` iterations left, for a body that makes library calls. -/
def for_loop_M {σ : Type} (body : Nat → σ → M σ) : Nat → Nat → σ → M σ
  | 0, _, st => pure st
  | n + 1, y, st => do
    let st1 ← body y st
    for_loop_M body n (y + 1) st1

/-- Value of the libpng constant `PNG_COLOR_TYPE_RGB`. -/
def PNG_COLOR_TYPE_RGB : Int := 2
/-- Value of the libpng constant `PNG_INTERLACE_NONE`. -/
def PNG_INTERLACE_NONE : Int := 0
/-- Value of the libpng constant `PNG_COMPRESSION_TYPE_DEFAULT`. -/
def PNG_COMPRESSION_TYPE_DEFAULT : Int := 0
/-- Value of the libpng constant `PNG_FILTER_TYPE_DEFAULT`. -/
def PNG_FILTER_TYPE_DEFAULT : Int := 0
/-- Value of the libpng constant `PNG_TRANSFORM_IDENTITY`. -/
def PNG_TRANSFORM_IDENTITY : Int := 0

/-! ## `save_png_to_file` -/

/-- Lines 69-72, one execution of the body of the inner loop.  The `size_t`
counters `x`, `y` are converted to the `int` parameters of `pixel_at`.  The
state is the row buffer and the offset of the cursor `row` in it. -/
def save_png_row_body (bitmap : bitmap_t) (y x : Nat) (st : List uint8_t × Int) :
    Option (List uint8_t × Int) := do
  let pixel := pixel_at bitmap (wrap_int x) (wrap_int y)
  let p ← load bitmap.pixels pixel
  let row ← store st.1 st.2 p.red
  let p ← load bitmap.pixels pixel
  let row ← store row (st.2 + 1) p.green
  let p ← load bitmap.pixels pixel
  let row ← store row (st.2 + 2) p.blue
  pure (row, st.2 + 3)

/-- Line 68, `for (x = ...; x < bitmap->width; x++)`: the inner loop for row
`y`, run from column `0`. -/
def save_png_row_cols (bitmap : bitmap_t) (y : Nat) (st : List uint8_t × Int) :
    Option (List uint8_t × Int) :=
  for_loop (save_png_row_body bitmap y) bitmap.width 0 st

/-- Size passed to `png_malloc` for one row, line 66:
`sizeof (uint8_t) * bitmap->width * pixel_size`, a `size_t` expression. -/
def row_size (bitmap : bitmap_t) (pixel_size : Int) : Nat :=
  1 * bitmap.width % SIZE_MOD * to_size_t pixel_size % SIZE_MOD

/-- Lines 65-73, one execution of the body of the outer loop: row `y` is
allocated and filled.  It is stored in slot `y` of the table once filled (the
table holds a pointer to it). -/
def save_png_row (bitmap : bitmap_t) (pixel_size : Int) (y : Nat)
    (row_pointers : List (List uint8_t)) : M (List (List uint8_t)) := do
  let row ← png_malloc (row_size bitmap pixel_size)
  match save_png_row_cols bitmap y (row, 0) with
  | none => undefined_behaviour
  | some filled =>
    match store row_pointers y filled.1 with
    | none => undefined_behaviour
    | some row_pointers1 => pure row_pointers1

/-- Line 64, `for (y = ...; y < bitmap->height; y++)`: the loop that
allocates and fills the rows, run from row `0`. -/
def save_png_rows (bitmap : bitmap_t) (pixel_size : Int) (row_pointers : List (List uint8_t)) :
    M (List (List uint8_t)) :=
  for_loop_M (save_png_row bitmap pixel_size) bitmap.height 0 row_pointers

/-- Lines 82-84, `for (y = ...; y < bitmap->height; y++) png_free (...)`. -/
def save_png_free_rows (bitmap : bitmap_t) : M Unit :=
  for_loop_M (fun y _ => png_call (Call.png_free (Ptr.row y))) bitmap.height 0 ()

/-- The function `save_png_to_file`, lines 11-87.  `png_set_IHDR` takes the
dimensions as 32-bit unsigned integers.  The result of `fclose` is ignored. -/
def save_png_to_file (bitmap : bitmap_t) (path : String) : M Unit := do
  let pixel_size : Int := 3
  let depth : Int := 8
  let fp ← call (Call.fopen path "wb")
  abort_if_null fp
  let png_ptr ← call Call.png_create_write_struct
  abort_if_null png_ptr
  let info_ptr ← call Call.png_create_info_struct
  abort_if_null info_ptr
  png_call (Call.png_set_IHDR (bitmap.width % 4294967296) (bitmap.height % 4294967296) depth
    PNG_COLOR_TYPE_RGB PNG_INTERLACE_NONE PNG_COMPRESSION_TYPE_DEFAULT PNG_FILTER_TYPE_DEFAULT)
  let row_pointers ← png_malloc_table (bitmap.height * 8 % SIZE_MOD)
  let row_pointers ← save_png_rows bitmap pixel_size row_pointers
  png_call Call.png_init_io
  png_call (Call.png_set_rows row_pointers)
  png_call (Call.png_write_png PNG_TRANSFORM_IDENTITY)
  save_png_free_rows bitmap
  png_call (Call.png_free Ptr.row_pointers)
  call_ignored Call.fclose

/-! ## `save_render` -/

/-- The function `save_render`, lines 89-107.  The block obtained from
`malloc` is not handed to `free`: the function ends with the call of
`save_png_to_file`. -/
def save_render (filename : String) (img : List uint8_t) (image_size : image_size_t) : M Unit := do
  let pixels ← malloc
    (save_render_alloc_size (to_size_t image_size.width) (to_size_t image_size.height))
  match save_render_fill pixels img image_size with
  | none => undefined_behaviour
  | some filled => save_png_to_file filled.1 filename

/-! ## Specification-level descriptions used in the statements -/

/-- Pixel expected at row-major slot `k` of the bitmap of a `w` by `h` image
read from the plane-separated, column-major buffer `img`: with `i = k / w` and
`j = k % w`, the bytes at `j*h + i`, `j*h + i + h*w` and `j*h + i + 2*h*w`. -/
def transposed (img : List uint8_t) (w h k : Nat) : pixel_t :=
  { red := img.getD (k % w * h + k / w) 0
    green := img.getD (k % w * h + k / w + h * w) 0
    blue := img.getD (k % w * h + k / w + 2 * (h * w)) 0 }

/-- The first `k` slots of the bitmap hold the expected pixels, the
dimensions are `w` and `h`, the block has `w*h` cells, and the slots stored to
so far are `0, 1, ..., k-1` in this order. -/
def Filled (img : List uint8_t) (w h k : Nat) (st : bitmap_t × List Int) : Prop :=
  st.1.width = w ∧ st.1.height = h ∧ st.1.pixels.length = w * h ∧
  st.2 = (List.range k).map Int.ofNat ∧
  ∀ k1, k1 < k → st.1.pixels[k1]? = some (transposed img w h k1)

/-- The dimensions fit the `int` parameters of `pixel_at` (each coordinate of
the image is at most `INT_MAX`) and the block has `width * height` cells. -/
def bitmap_t.valid (bitmap : bitmap_t) : Prop :=
  bitmap.pixels.length = bitmap.width * bitmap.height ∧
  bitmap.width ≤ 2147483648 ∧ bitmap.height ≤ 2147483648

/-- Row `y` as the inner loop of `save_png_to_file` leaves it, starting from
a fresh block (the empty block when the loop leaves its blocks). -/
def filled_row (bitmap : bitmap_t) (junk : Nat → uint8_t) (y : Nat) : List uint8_t :=
  match save_png_row_cols bitmap y (malloc_bytes junk (row_size bitmap 3), 0) with
  | some st => st.1
  | none => []

/-- The table of rows as the outer loop of `save_png_to_file` leaves it. -/
def filled_rows (bitmap : bitmap_t) (junk : Nat → uint8_t) : List (List uint8_t) :=
  (List.range bitmap.height).map (filled_row bitmap junk)

/-- The first `x` pixels of row `y` are in the row buffer, three bytes each,
and the cursor stands behind them. -/
def RowFilled (bitmap : bitmap_t) (y x : Nat) (st : List uint8_t × Int) : Prop :=
  st.1.length = 3 * bitmap.width ∧ st.2 = ((3 * x : Nat) : Int) ∧
  ∀ x1, x1 < x → ∃ p, bitmap.pixels[y * bitmap.width + x1]? = some p ∧
    st.1[3 * x1]? = some p.red ∧ st.1[3 * x1 + 1]? = some p.green ∧
    st.1[3 * x1 + 2]? = some p.blue

/-- The table holds the finished rows `0 .. y-1`. -/
def TableFilled (bitmap : bitmap_t) (junk : Nat → uint8_t) (y : Nat)
    (tbl : List (List uint8_t)) : Prop :=
  tbl.length = bitmap.height ∧ ∀ y1, y1 < y → tbl[y1]? = some (filled_row bitmap junk y1)

/-- Run of a list of calls each of which is fatal when it fails: the calls
are logged in order up to the first failing one.  The result says whether a
call failed, and gives the log. -/
def run_script (env : Env) : List Call → List Call → Bool × List Call
  | log, [] => (false, log)
  | log, c :: cs =>
    if env.fails log.length then (true, log ++ [c]) else run_script env (log ++ [c]) cs

/-- What follows a run of fatal calls: `abort()` when one of them failed, the
continuation `k` otherwise. -/
def finish {α : Type} (r : Bool × List Call) (k : List Call → Outcome α × List Call) :
    Outcome α × List Call :=
  if r.1 then (Outcome.abort, r.2) else k r.2

/-- The fatal calls of `save_png_to_file`, in program order, for a bitmap
whose rows are `rows`. -/
def png_script (bitmap : bitmap_t) (path : String) (rows : List (List uint8_t)) : List Call :=
  [Call.fopen path "wb", Call.png_create_write_struct, Call.png_create_info_struct,
    Call.png_set_IHDR (bitmap.width % 4294967296) (bitmap.height % 4294967296) 8
      PNG_COLOR_TYPE_RGB PNG_INTERLACE_NONE PNG_COMPRESSION_TYPE_DEFAULT PNG_FILTER_TYPE_DEFAULT,
    Call.png_malloc (bitmap.height * 8 % SIZE_MOD)]
  ++ (List.range bitmap.height).map (fun _ => Call.png_malloc (row_size bitmap 3))
  ++ [Call.png_init_io, Call.png_set_rows rows, Call.png_write_png PNG_TRANSFORM_IDENTITY]
  ++ (List.range bitmap.height).map (fun y => Call.png_free (Ptr.row y))
  ++ [Call.png_free Ptr.row_pointers]

/-- A bitmap of one row of `2^31 + 1` pixels. -/
def wide_bitmap : bitmap_t :=
  { pixels := List.replicate 2147483649 ⟨0, 0, 0⟩, width := 2147483649, height := 1 }

/-- No call fails; fresh memory is filled with the byte 170. -/
def quiet : Env := { fails := fun _ => false, junk := fun _ => 170 }

/-- The source buffer of the 2 x 2 example: three planes of four bytes. -/
def example_img : List uint8_t := [10, 20, 30, 40, 50, 60, 70, 80, 90, 100, 110, 120]

/-- A bitmap of one row of two pixels. -/
def small_bitmap : bitmap_t :=
  { pixels := [⟨1, 2, 3⟩, ⟨4, 5, 6⟩], width := 2, height := 1 }

/-! ## Basic facts -/

theorem wrap_int_id (z : Int) (h0 : -2147483648 ≤ z) (h1 : z ≤ 2147483647) : wrap_int z = z := by
  unfold wrap_int; omega

theorem wrap_llong_id (z : Int) (h0 : -9223372036854775808 ≤ z)
    (h1 : z ≤ 9223372036854775807) : wrap_llong z = z := by
  unfold wrap_llong; omega

theorem to_size_t_id (n : Nat) (h : n < 18446744073709551616) : to_size_t (n : Int) = n := by
  unfold to_size_t; omega

theorem load_natCast {α : Type} (mem : List α) (n : Nat) : load mem (n : Int) = mem[n]? := by
  simp [load]

theorem load_neg {α : Type} (mem : List α) (z : Int) (h : z < 0) : load mem z = none := by
  simp [load, h]

theorem store_natCast {α : Type} (mem : List α) (n : Nat) (v : α) (h : n < mem.length) :
    store mem (n : Int) v = some (mem.set n v) := by
  simp [store, h]

theorem store_field_natCast {α : Type} (mem : List α) (n : Nat) (f : α → α) (old : α)
    (h : mem[n]? = some old) : store_field mem (n : Int) f = some (mem.set n (f old)) := by
  have hlt : n < mem.length := by
    rcases List.getElem?_eq_some_iff.mp h with ⟨hlt, _⟩
    exact hlt
  simp [store_field, load_natCast, h, store_natCast, hlt]

theorem pixel_at_natCast (bitmap : bitmap_t) (x : Int) (y : Nat)
    (h : bitmap.width * y < 18446744073709551616) (hy : y < 18446744073709551616) :
    pixel_at bitmap x (y : Int) = ((bitmap.width * y : Nat) : Int) + x := by
  unfold pixel_at
  rw [to_size_t_id y hy, SIZE_MOD, Nat.mod_eq_of_lt h]

/-- Row-major offsets stay inside the block. -/
theorem offset_lt (w h i j : Nat) (hi : i < h) (hj : j < w) : i * w + j < w * h := by
  have h1 : (i + 1) * w ≤ h * w := Nat.mul_le_mul_right w hi
  have h2 : (i + 1) * w = i * w + w := by ring
  have h3 : h * w = w * h := Nat.mul_comm h w
  omega

theorem offset_div (w i j : Nat) (hj : j < w) : (i * w + j) / w = i := by
  have hw : 0 < w := by omega
  rw [Nat.add_comm, Nat.add_mul_div_right j i hw, Nat.div_eq_of_lt hj, Nat.zero_add]

theorem offset_mod (w i j : Nat) (hj : j < w) : (i * w + j) % w = j := by
  rw [Nat.add_comm, Nat.add_mul_mod_self_right, Nat.mod_eq_of_lt hj]

/-! ## Index arithmetic of `save_render` -/

theorem save_render_hw_eq (w h : Nat) (hwh : w * h ≤ INT_MAX) :
    save_render_hw ⟨w, h⟩ = ((h * w : Nat) : Int) := by
  have e : ((h : Int) * (w : Int)) = ((h * w : Nat) : Int) := by push_cast; rfl
  have c : h * w = w * h := Nat.mul_comm h w
  unfold save_render_hw
  simp only [e]
  unfold INT_MAX at hwh
  exact wrap_int_id _ (by omega) (by omega)

theorem red_index_eq (w h i j : Nat) (hwh : w * h ≤ INT_MAX) (hi : i < h) (hj : j < w) :
    red_index ⟨w, h⟩ i j = ((j * h + i : Nat) : Int) := by
  have e : ((j : Int) * (h : Int)) = ((j * h : Nat) : Int) := by push_cast; rfl
  have b : j * h + i < h * w := offset_lt h w j i hj hi
  have c : h * w = w * h := Nat.mul_comm h w
  unfold INT_MAX at hwh
  unfold red_index
  simp only [e]
  rw [wrap_int_id (((j * h : Nat) : Int)) (by omega) (by omega)]
  rw [wrap_int_id _ (by omega) (by omega)]
  push_cast; rfl

theorem green_index_eq (w h i j : Nat) (hwh : w * h ≤ INT_MAX) (hi : i < h) (hj : j < w) :
    green_index ⟨w, h⟩ ((h * w : Nat) : Int) i j = ((j * h + i + h * w : Nat) : Int) := by
  have b : j * h + i < h * w := offset_lt h w j i hj hi
  have c : h * w = w * h := Nat.mul_comm h w
  unfold INT_MAX at hwh
  unfold green_index
  rw [red_index_eq w h i j hwh hi hj, wrap_llong_id _ (by omega) (by omega)]
  push_cast; rfl

theorem blue_index_eq (w h i j : Nat) (hwh : w * h ≤ INT_MAX) (hi : i < h) (hj : j < w) :
    blue_index ⟨w, h⟩ ((h * w : Nat) : Int) i j = ((j * h + i + 2 * (h * w) : Nat) : Int) := by
  have b : j * h + i < h * w := offset_lt h w j i hj hi
  have c : h * w = w * h := Nat.mul_comm h w
  unfold INT_MAX at hwh
  unfold blue_index
  rw [red_index_eq w h i j hwh hi hj, wrap_llong_id (2 * ((h * w : Nat) : Int)) (by omega) (by omega),
    wrap_llong_id _ (by omega) (by omega)]
  push_cast; rfl

/-- Three field stores to the same cell amount to one store of the whole pixel. -/
theorem store_three_fields (mem : List pixel_t) (k : Nat) (r g b : uint8_t)
    (hk : k < mem.length) :
    ((store_field mem (k : Int) (fun p => { p with red := r })).bind fun px1 =>
      (store_field px1 (k : Int) (fun p => { p with green := g })).bind fun px2 =>
        store_field px2 (k : Int) (fun p => { p with blue := b }))
      = some (mem.set k ⟨r, g, b⟩) := by
  have h1 : mem[k]? = some mem[k] := List.getElem?_eq_getElem hk
  rw [store_field_natCast mem k _ _ h1]
  simp only [Option.some_bind]
  have h2 : (mem.set k { mem[k] with red := r })[k]? = some { mem[k] with red := r } := by
    simp [hk]
  rw [store_field_natCast _ k _ _ h2]
  simp only [Option.some_bind, List.set_set]
  have h3 : (mem.set k { red := r, green := g, blue := mem[k].blue })[k]?
      = some { red := r, green := g, blue := mem[k].blue } := by
    simp [hk]
  rw [store_field_natCast _ k _ _ h3]
  simp only [List.set_set]

/-- One execution of the body when the three loads and the pixel slot are in
range. -/
theorem save_render_body_eq (img : List uint8_t) (image_size : image_size_t) (hw i j : Int)
    (st : bitmap_t × List Int) (k : Nat) (r g b : uint8_t)
    (hp : pixel_at st.1 j i = (k : Int)) (hk : k < st.1.pixels.length)
    (hr : load img (red_index image_size i j) = some r)
    (hg : load img (green_index image_size hw i j) = some g)
    (hb : load img (blue_index image_size hw i j) = some b) :
    save_render_body img image_size hw i j st
      = some ({ st.1 with pixels := st.1.pixels.set k ⟨r, g, b⟩ }, st.2 ++ [(k : Int)]) := by
  have h3 := store_three_fields st.1.pixels k r g b hk
  unfold save_render_body
  simp only [hp, hr, hg, hb, Option.bind_eq_bind, Option.some_bind, Option.pure_def] at h3 ⊢
  cases h1 : store_field st.1.pixels (k : Int) (fun p => { p with red := r }) with
  | none => rw [h1] at h3; simp at h3
  | some px1 =>
    rw [h1] at h3; simp only [Option.some_bind] at h3 ⊢
    cases h2 : store_field px1 (k : Int) (fun p => { p with green := g }) with
    | none => rw [h2] at h3; simp at h3
    | some px2 =>
      rw [h2] at h3; simp only [Option.some_bind] at h3 ⊢
      rw [h3]; rfl

/-! ## The fill loop keeps `Filled` -/

theorem load_getD (img : List uint8_t) (n : Nat) (h : n < img.length) :
    load img (n : Int) = some (img.getD n 0) := by
  rw [load_natCast, List.getD_eq_getElem?_getD, List.getElem?_eq_getElem h]
  rfl

theorem Filled_step (img : List uint8_t) (w h k : Nat) (st : bitmap_t × List Int)
    (hk : k < w * h) (hst : Filled img w h k st) :
    Filled img w h (k + 1)
      ({ st.1 with pixels := st.1.pixels.set k (transposed img w h k) }, st.2 ++ [(k : Int)]) := by
  obtain ⟨h1, h2, h3, h4, h5⟩ := hst
  refine ⟨h1, h2, ?_, ?_, ?_⟩
  · simp [h3]
  · simp only [h4, List.range_succ, List.map_append, List.map_cons, List.map_nil]
    rfl
  · intro k1 hk1
    by_cases e : k1 = k
    · subst e
      simp only
      rw [List.getElem?_set_self (by omega)]
    · simp only
      rw [List.getElem?_set_ne (by omega)]
      exact h5 k1 (by omega)

theorem save_render_body_Filled (img : List uint8_t) (w h i j : Nat)
    (st : bitmap_t × List Int) (hwh : w * h ≤ INT_MAX) (himg : img.length = 3 * (w * h))
    (hi : i < h) (hj : j < w) (hst : Filled img w h (i * w + j) st) :
    ∃ st1, save_render_body img ⟨w, h⟩ ((h * w : Nat) : Int) i j st = some st1 ∧
      Filled img w h (i * w + j + 1) st1 := by
  have hk : i * w + j < w * h := offset_lt w h i j hi hj
  have b : j * h + i < h * w := offset_lt h w j i hj hi
  have c : h * w = w * h := Nat.mul_comm h w
  have c2 : w * i = i * w := Nat.mul_comm w i
  have hM : w * h ≤ 2147483647 := hwh
  have hp : pixel_at st.1 (j : Int) (i : Int) = ((i * w + j : Nat) : Int) := by
    rw [pixel_at_natCast st.1 j i (by rw [hst.1]; omega) (by omega), hst.1, c2]
    push_cast; rfl
  have hlen : i * w + j < st.1.pixels.length := by rw [hst.2.2.1]; exact hk
  have hr := load_getD img (j * h + i) (by omega)
  have hg := load_getD img (j * h + i + h * w) (by omega)
  have hb := load_getD img (j * h + i + 2 * (h * w)) (by omega)
  rw [← red_index_eq w h i j hwh hi hj] at hr
  rw [← green_index_eq w h i j hwh hi hj] at hg
  rw [← blue_index_eq w h i j hwh hi hj] at hb
  refine ⟨_, save_render_body_eq img ⟨w, h⟩ _ i j st (i * w + j) _ _ _ hp hlen hr hg hb, ?_⟩
  have hF := Filled_step img w h (i * w + j) st hk hst
  have e : transposed img w h (i * w + j)
      = ⟨img.getD (j * h + i) 0, img.getD (j * h + i + h * w) 0,
          img.getD (j * h + i + 2 * (h * w)) 0⟩ := by
    simp only [transposed, offset_div w i j hj, offset_mod w i j hj]
  rw [e] at hF
  exact hF

/-! ## Loops: unfolding and invariants -/

theorem for_loop_succ {σ : Type} (body : Nat → σ → Option σ) (n x : Nat) (st : σ) :
    for_loop body (n + 1) x st =
      match body x st with
      | none => none
      | some st1 => for_loop body n (x + 1) st1 := rfl

theorem for_loop_int_succ {σ : Type} (body : Int → σ → Option σ) (n : Nat) (x : Int) (st : σ) :
    for_loop_int body (n + 1) x st =
      match body x st with
      | none => none
      | some st1 => for_loop_int body n (x + 1) st1 := rfl

/-- A loop whose body keeps an invariant runs to completion and establishes
the invariant at the bound. -/
theorem for_loop_inv {σ : Type} (body : Nat → σ → Option σ) (bound : Nat)
    (Inv : Nat → σ → Prop)
    (hbody : ∀ x st, x < bound → Inv x st → ∃ st1, body x st = some st1 ∧ Inv (x + 1) st1) :
    ∀ (n x : Nat) (st : σ), x + n = bound → Inv x st →
      ∃ st1, for_loop body n x st = some st1 ∧ Inv bound st1 := by
  intro n
  induction n with
  | zero =>
    intro x st hx hst
    have e : x = bound := by omega
    subst e
    exact ⟨st, rfl, hst⟩
  | succ n ih =>
    intro x st hx hst
    have hxb : x < bound := by omega
    obtain ⟨st1, h1, hI1⟩ := hbody x st hxb hst
    have hx1 : x + 1 + n = bound := by omega
    obtain ⟨st2, h2, hI2⟩ := ih (x + 1) st1 hx1 hI1
    refine ⟨st2, ?_, hI2⟩
    rw [for_loop_succ, h1]
    exact h2

theorem natCast_succ (j : Nat) : ((j + 1 : Nat) : Int) = (j : Int) + 1 := by
  push_cast; rfl

theorem for_loop_int_inv {σ : Type} (body : Int → σ → Option σ) (bound : Nat)
    (Inv : Nat → σ → Prop)
    (hbody : ∀ (x : Nat) st, x < bound → Inv x st →
      ∃ st1, body (x : Int) st = some st1 ∧ Inv (x + 1) st1) :
    ∀ (n x : Nat) (st : σ), x + n = bound → Inv x st →
      ∃ st1, for_loop_int body n (x : Int) st = some st1 ∧ Inv bound st1 := by
  intro n
  induction n with
  | zero =>
    intro x st hx hst
    have e : x = bound := by omega
    subst e
    exact ⟨st, rfl, hst⟩
  | succ n ih =>
    intro x st hx hst
    have hxb : x < bound := by omega
    obtain ⟨st1, h1, hI1⟩ := hbody x st hxb hst
    have hx1 : x + 1 + n = bound := by omega
    obtain ⟨st2, h2, hI2⟩ := ih (x + 1) st1 hx1 hI1
    refine ⟨st2, ?_, hI2⟩
    rw [for_loop_int_succ, h1]
    rw [natCast_succ] at h2
    exact h2

/-- A loop one of whose iterations leaves its blocks, whatever the state,
does not run to completion. -/
theorem for_loop_none {σ : Type} (body : Nat → σ → Option σ) :
    ∀ (n x : Nat) (st : σ) (k : Nat), k < n → (∀ s, body (x + k) s = none) →
      for_loop body n x st = none := by
  intro n
  induction n with
  | zero => intro x st k hk; omega
  | succ n ih =>
    intro x st k hk hnone
    rw [for_loop_succ]
    cases hb : body x st with
    | none => rfl
    | some st1 =>
      cases k with
      | zero =>
        have := hnone st
        rw [Nat.add_zero, hb] at this
        exact absurd this (by simp)
      | succ k =>
        have e : x + (k + 1) = x + 1 + k := by omega
        rw [e] at hnone
        exact ih (x + 1) st1 k (by omega) hnone

theorem for_loop_int_none {σ : Type} (body : Int → σ → Option σ) :
    ∀ (n : Nat) (x : Int) (st : σ) (k : Nat), k < n → (∀ s, body (x + (k : Int)) s = none) →
      for_loop_int body n x st = none := by
  intro n
  induction n with
  | zero => intro x st k hk; omega
  | succ n ih =>
    intro x st k hk hnone
    rw [for_loop_int_succ]
    cases hb : body x st with
    | none => rfl
    | some st1 =>
      cases k with
      | zero =>
        have := hnone st
        simp only [Nat.cast_zero, Int.add_zero] at this
        rw [hb] at this
        exact absurd this (by simp)
      | succ k =>
        have e : x + ((k + 1 : Nat) : Int) = x + 1 + (k : Int) := by push_cast; ring
        rw [e] at hnone
        exact ih (x + 1) st1 k (by omega) hnone

/-! ## The fill loop of `save_render` -/

theorem save_render_cols_Filled (img : List uint8_t) (w h i : Nat)
    (hwh : w * h ≤ INT_MAX) (himg : img.length = 3 * (w * h)) (hi : i < h)
    (st : bitmap_t × List Int) (hst : Filled img w h (i * w) st) :
    ∃ st1, save_render_cols img ⟨w, h⟩ ((h * w : Nat) : Int) i st = some st1 ∧
      Filled img w h ((i + 1) * w) st1 := by
  have key := for_loop_int_inv (save_render_body img ⟨w, h⟩ ((h * w : Nat) : Int) i) w
    (fun j s => Filled img w h (i * w + j) s)
    (fun j s hj hs => save_render_body_Filled img w h i j s hwh himg hi hj hs)
    w 0 st (Nat.zero_add w) hst
  obtain ⟨st1, h1, hF1⟩ := key
  refine ⟨st1, ?_, ?_⟩
  · unfold save_render_cols
    have hw : (image_size_t.mk (w : Int) (h : Int)).width.toNat = w := Int.toNat_ofNat w
    rw [hw]
    exact h1
  · have e : (i + 1) * w = i * w + w := by ring
    rw [e]
    exact hF1

theorem save_render_rows_Filled (img : List uint8_t) (w h : Nat)
    (hwh : w * h ≤ INT_MAX) (himg : img.length = 3 * (w * h))
    (st : bitmap_t × List Int) (hst : Filled img w h 0 st) :
    ∃ st1, save_render_rows img ⟨w, h⟩ ((h * w : Nat) : Int) st = some st1 ∧
      Filled img w h (w * h) st1 := by
  have key := for_loop_int_inv (save_render_cols img ⟨w, h⟩ ((h * w : Nat) : Int)) h
    (fun i s => Filled img w h (i * w) s)
    (fun i s hi hs => save_render_cols_Filled img w h i hwh himg hi s hs)
    h 0 st (Nat.zero_add h) (by show Filled img w h (0 * w) st; rw [Nat.zero_mul]; exact hst)
  obtain ⟨st1, h1, hF1⟩ := key
  refine ⟨st1, ?_, ?_⟩
  · unfold save_render_rows
    have hh : (image_size_t.mk (w : Int) (h : Int)).height.toNat = h := Int.toNat_ofNat h
    rw [hh]
    exact h1
  · rw [Nat.mul_comm]
    exact hF1

theorem Filled_init (pixels : List pixel_t) (img : List uint8_t) (w h : Nat)
    (hpx : pixels.length = w * h) :
    Filled img w h 0
      (({ pixels := pixels, width := w, height := h } : bitmap_t), ([] : List Int)) := by
  refine ⟨rfl, rfl, hpx, rfl, ?_⟩
  intro k1 hk1
  exact absurd hk1 (Nat.not_lt_zero k1)

/-- Under the precondition of `save_render` the fill loop runs to completion
and leaves the bitmap `Filled` up to its last slot. -/
theorem save_render_fill_Filled (pixels : List pixel_t) (img : List uint8_t) (w h : Nat)
    (hwh : w * h ≤ INT_MAX) (hw0 : 0 < w) (hh0 : 0 < h)
    (himg : img.length = 3 * (w * h)) (hpx : pixels.length = w * h) :
    ∃ st, save_render_fill pixels img ⟨w, h⟩ = some st ∧ Filled img w h (w * h) st := by
  have hM : w * h ≤ 2147483647 := hwh
  have hwle : w ≤ w * h := Nat.le_mul_of_pos_right w hh0
  have hhle : h ≤ w * h := Nat.le_mul_of_pos_left h hw0
  obtain ⟨st, h1, hF⟩ := save_render_rows_Filled img w h hwh himg
    (({ pixels := pixels, width := w, height := h } : bitmap_t), ([] : List Int))
    (Filled_init pixels img w h hpx)
  refine ⟨st, ?_, hF⟩
  unfold save_render_fill
  simp only [save_render_hw_eq w h hwh]
  have e1 : to_size_t ((w : Nat) : Int) = w := to_size_t_id w (by omega)
  have e2 : to_size_t ((h : Nat) : Int) = h := to_size_t_id h (by omega)
  rw [e1, e2]
  exact h1

/-- The block returned by a successful `malloc` in `save_render` has one cell
per pixel. -/
theorem malloc_pixels_length (junk : Nat → uint8_t) (w h : Nat) (hwh : w * h ≤ INT_MAX)
    (hw0 : 0 < w) (hh0 : 0 < h) :
    save_render_alloc_size (to_size_t (w : Int)) (to_size_t (h : Int)) = 3 * (w * h) ∧
    (malloc_pixels junk (3 * (w * h))).length = w * h := by
  have hM : w * h ≤ 2147483647 := hwh
  have hwle : w ≤ w * h := Nat.le_mul_of_pos_right w hh0
  have hhle : h ≤ w * h := Nat.le_mul_of_pos_left h hw0
  have e1 : to_size_t ((w : Nat) : Int) = w := to_size_t_id w (by omega)
  have e2 : to_size_t ((h : Nat) : Int) = h := to_size_t_id h (by omega)
  constructor
  · rw [e1, e2]
    unfold save_render_alloc_size sizeof_pixel_t SIZE_MOD
    have a1 : 3 * w % 18446744073709551616 = 3 * w := Nat.mod_eq_of_lt (by omega)
    have a2 : 3 * w * h = 3 * (w * h) := Nat.mul_assoc 3 w h
    rw [a1, a2]
    exact Nat.mod_eq_of_lt (by omega)
  · unfold malloc_pixels sizeof_pixel_t
    rw [List.length_map, List.length_range]
    omega

/-! ## Rows of `save_png_to_file` -/

theorem wrap_int_natCast (x : Nat) (h : x ≤ 2147483647) : wrap_int (x : Int) = (x : Int) :=
  wrap_int_id _ (by omega) (by omega)

theorem row_size_eq (bitmap : bitmap_t) (h : bitmap.width ≤ 2147483648) :
    row_size bitmap 3 = 3 * bitmap.width := by
  have e : to_size_t 3 = 3 := by decide
  unfold row_size SIZE_MOD
  rw [e]
  omega

theorem pixel_at_valid (bitmap : bitmap_t) (hv : bitmap.valid) (x y : Nat)
    (hx : x < bitmap.width) (hy : y < bitmap.height) :
    pixel_at bitmap (wrap_int x) (wrap_int y) = ((y * bitmap.width + x : Nat) : Int) := by
  obtain ⟨h1, h2, h3⟩ := hv
  have hb : y * bitmap.width + x < bitmap.width * bitmap.height :=
    offset_lt bitmap.width bitmap.height y x hy hx
  have hc : bitmap.width * y = y * bitmap.width := Nat.mul_comm _ _
  have hle : bitmap.width * bitmap.height ≤ 2147483648 * 2147483648 :=
    Nat.mul_le_mul h2 h3
  rw [wrap_int_natCast x (by omega), wrap_int_natCast y (by omega),
    pixel_at_natCast bitmap x y (by omega) (by omega), hc]
  push_cast; rfl

theorem save_png_row_body_eq (bitmap : bitmap_t) (y x : Nat) (st : List uint8_t × Int)
    (k c : Nat) (p : pixel_t)
    (hp : pixel_at bitmap (wrap_int x) (wrap_int y) = (k : Int))
    (hk : bitmap.pixels[k]? = some p) (hc : st.2 = (c : Int)) (hlen : c + 2 < st.1.length) :
    save_png_row_body bitmap y x st
      = some (((st.1.set c p.red).set (c + 1) p.green).set (c + 2) p.blue, ((c + 3 : Nat) : Int)) := by
  have e1 : (c : Int) + 1 = ((c + 1 : Nat) : Int) := by push_cast; rfl
  have e2 : (c : Int) + 2 = ((c + 2 : Nat) : Int) := by push_cast; rfl
  have e3 : (c : Int) + 3 = ((c + 3 : Nat) : Int) := by push_cast; rfl
  unfold save_png_row_body
  simp only [hp, hc, load_natCast, hk, e1, e2, e3, Option.bind_eq_bind, Option.some_bind,
    Option.pure_def]
  rw [store_natCast _ c _ (by omega)]
  simp only [Option.some_bind]
  rw [store_natCast _ (c + 1) _ (by simp; omega)]
  simp only [Option.some_bind]
  rw [store_natCast _ (c + 2) _ (by simp; omega)]
  simp only [Option.some_bind]

theorem RowFilled_step (bitmap : bitmap_t) (y x : Nat) (st : List uint8_t × Int) (p : pixel_t)
    (hx : x < bitmap.width) (hp : bitmap.pixels[y * bitmap.width + x]? = some p)
    (hst : RowFilled bitmap y x st) :
    RowFilled bitmap y (x + 1)
      (((st.1.set (3 * x) p.red).set (3 * x + 1) p.green).set (3 * x + 2) p.blue,
        ((3 * x + 3 : Nat) : Int)) := by
  obtain ⟨h1, h2, h3⟩ := hst
  refine ⟨by simp [h1], rfl, ?_⟩
  intro x1 hx1
  by_cases e : x1 = x
  · subst e
    refine ⟨p, hp, ?_, ?_, ?_⟩
    · rw [List.getElem?_set_ne (by omega), List.getElem?_set_ne (by omega),
        List.getElem?_set_self (by omega)]
    · rw [List.getElem?_set_ne (by omega), List.getElem?_set_self (by simp; omega)]
    · rw [List.getElem?_set_self (by simp; omega)]
  · obtain ⟨q, hq, hr, hg, hb⟩ := h3 x1 (by omega)
    refine ⟨q, hq, ?_, ?_, ?_⟩
    · rw [List.getElem?_set_ne (by omega), List.getElem?_set_ne (by omega),
        List.getElem?_set_ne (by omega)]
      exact hr
    · rw [List.getElem?_set_ne (by omega), List.getElem?_set_ne (by omega),
        List.getElem?_set_ne (by omega)]
      exact hg
    · rw [List.getElem?_set_ne (by omega), List.getElem?_set_ne (by omega),
        List.getElem?_set_ne (by omega)]
      exact hb

theorem save_png_row_body_RowFilled (bitmap : bitmap_t) (hv : bitmap.valid) (y x : Nat)
    (st : List uint8_t × Int) (hy : y < bitmap.height) (hx : x < bitmap.width)
    (hst : RowFilled bitmap y x st) :
    ∃ st1, save_png_row_body bitmap y x st = some st1 ∧ RowFilled bitmap y (x + 1) st1 := by
  have hb : y * bitmap.width + x < bitmap.pixels.length := by
    rw [hv.1]; exact offset_lt bitmap.width bitmap.height y x hy hx
  have hp : bitmap.pixels[y * bitmap.width + x]? = some bitmap.pixels[y * bitmap.width + x] :=
    List.getElem?_eq_getElem hb
  have hlen : 3 * x + 2 < st.1.length := by rw [hst.1]; omega
  exact ⟨_, save_png_row_body_eq bitmap y x st _ (3 * x) _ (pixel_at_valid bitmap hv x y hx hy)
    hp hst.2.1 hlen, RowFilled_step bitmap y x st _ hx hp hst⟩

/-- What a finished row holds. -/
theorem filled_row_spec (bitmap : bitmap_t) (hv : bitmap.valid) (junk : Nat → uint8_t) (y : Nat)
    (hy : y < bitmap.height) :
    save_png_row_cols bitmap y (malloc_bytes junk (row_size bitmap 3), 0)
      = some (filled_row bitmap junk y, ((3 * bitmap.width : Nat) : Int)) ∧
    RowFilled bitmap y bitmap.width (filled_row bitmap junk y, ((3 * bitmap.width : Nat) : Int)) := by
  have h0 : RowFilled bitmap y 0 (malloc_bytes junk (row_size bitmap 3), 0) := by
    refine ⟨?_, rfl, ?_⟩
    · simp [malloc_bytes, row_size_eq bitmap hv.2.1]
    · intro x1 hx1; omega
  obtain ⟨st1, h1, hF1⟩ := for_loop_inv (save_png_row_body bitmap y) bitmap.width
    (fun x s => RowFilled bitmap y x s)
    (fun x s hx hs => save_png_row_body_RowFilled bitmap hv y x s hy hx hs)
    bitmap.width 0 _ (Nat.zero_add _) h0
  have h1a : save_png_row_cols bitmap y (malloc_bytes junk (row_size bitmap 3), 0) = some st1 := h1
  have e : filled_row bitmap junk y = st1.1 := by
    unfold filled_row; rw [h1a]
  have e2 : st1 = (st1.1, st1.2) := rfl
  have hF1a : RowFilled bitmap y bitmap.width st1 := hF1
  rw [e, ← hF1a.2.1, ← e2]
  exact ⟨h1a, hF1a⟩

/-! ## Runs of fatal calls -/

theorem bind_apply {α β : Type} (m : M α) (f : α → M β) (env : Env) (log : List Call) :
    (m >>= f) env log = match m env log with
      | (Outcome.ret a, log1) => f a env log1
      | (Outcome.abort, log1) => (Outcome.abort, log1)
      | (Outcome.undef, log1) => (Outcome.undef, log1) := rfl

theorem pure_apply {α : Type} (a : α) (env : Env) (log : List Call) :
    (pure a : M α) env log = (Outcome.ret a, log) := rfl

theorem run_script_nil (env : Env) (log : List Call) : run_script env log [] = (false, log) := rfl

theorem run_script_cons (env : Env) (log : List Call) (c : Call) (cs : List Call) :
    run_script env log (c :: cs) =
      if env.fails log.length then (true, log ++ [c]) else run_script env (log ++ [c]) cs := rfl

theorem finish_nil {α : Type} (env : Env) (log : List Call)
    (k : List Call → Outcome α × List Call) : finish (run_script env log []) k = k log := rfl

theorem finish_cons {α : Type} (env : Env) (log : List Call) (c : Call) (cs : List Call)
    (k : List Call → Outcome α × List Call) :
    finish (run_script env log (c :: cs)) k =
      if env.fails log.length then (Outcome.abort, log ++ [c])
      else finish (run_script env (log ++ [c]) cs) k := by
  rw [run_script_cons]
  cases h : env.fails log.length <;> simp [finish]

theorem finish_append {α : Type} (env : Env) (k : List Call → Outcome α × List Call) :
    ∀ (a b : List Call) (log : List Call),
      finish (run_script env log (a ++ b)) k =
        finish (run_script env log a) (fun l => finish (run_script env l b) k) := by
  intro a
  induction a with
  | nil => intro b log; rfl
  | cons c a ih =>
    intro b log
    rw [List.cons_append, finish_cons, finish_cons, ih]

/-- A fatal call followed by the rest of the program. -/
theorem png_call_bind {β : Type} (c : Call) (f : Unit → M β) (env : Env) (log : List Call) :
    (png_call c >>= f) env log = finish (run_script env log [c]) (fun l => f () env l) := by
  rw [finish_cons, bind_apply]
  unfold png_call
  rw [bind_apply]
  cases h : env.fails log.length <;>
    simp [call, h, abort_if_null, abort, pure_apply, finish_nil]

theorem png_call_apply (c : Call) (env : Env) (log : List Call) :
    png_call c env log = finish (run_script env log [c]) (fun l => (Outcome.ret (), l)) := by
  rw [finish_cons]
  unfold png_call
  rw [bind_apply]
  cases h : env.fails log.length <;>
    simp [call, h, abort_if_null, abort, pure_apply, finish_nil]

/-- A call whose null result is fatal, followed by the rest of the program. -/
theorem call_check_bind {β : Type} (c : Call) (f : Unit → M β) (env : Env) (log : List Call) :
    (call c >>= fun ok => abort_if_null ok >>= f) env log =
      finish (run_script env log [c]) (fun l => f () env l) := by
  rw [finish_cons, bind_apply]
  cases h : env.fails log.length <;>
    simp [call, h, abort_if_null, abort, pure_apply, finish_nil, bind_apply]

theorem finish_bind {α β : Type} (r : Bool × List Call) (a : α) (f : α → M β) (env : Env)
    (m : M α) (log : List Call) (hm : m env log = finish r (fun l => (Outcome.ret a, l))) :
    (m >>= f) env log = finish r (fun l => f a env l) := by
  rw [bind_apply, hm]
  unfold finish
  cases r.1 <;> simp

theorem for_loop_M_zero {σ : Type} (body : Nat → σ → M σ) (y : Nat) (st : σ) :
    for_loop_M body 0 y st = pure st := rfl

theorem for_loop_M_succ {σ : Type} (body : Nat → σ → M σ) (n y : Nat) (st : σ) :
    for_loop_M body (n + 1) y st = body y st >>= fun st1 => for_loop_M body n (y + 1) st1 := rfl

/-- A loop whose body makes one fatal call and then updates the state by `g`
runs the script of these calls; it returns the state `final` that the
invariant determines at the bound. -/
theorem for_loop_M_script {σ : Type} (body : Nat → σ → M σ) (bound : Nat) (env : Env)
    (Inv : Nat → σ → Prop) (c : Nat → Call) (g : Nat → σ → σ) (final : σ)
    (hbody : ∀ y st log, y < bound → Inv y st →
      body y st env log = finish (run_script env log [c y]) (fun l => (Outcome.ret (g y st), l)))
    (hInv : ∀ y st, y < bound → Inv y st → Inv (y + 1) (g y st))
    (hfinal : ∀ st, Inv bound st → st = final) :
    ∀ (n y : Nat) (st : σ) (log : List Call), y + n = bound → Inv y st →
      for_loop_M body n y st env log =
        finish (run_script env log ((List.range n).map (fun k => c (y + k))))
          (fun l => (Outcome.ret final, l)) := by
  intro n
  induction n with
  | zero =>
    intro y st log hy hst
    have e : y = bound := by omega
    subst e
    rw [for_loop_M_zero, pure_apply, List.range_zero, List.map_nil, finish_nil,
      hfinal st hst]
  | succ n ih =>
    intro y st log hy hst
    have hyb : y < bound := by omega
    rw [for_loop_M_succ, finish_bind _ _ _ _ _ _ (hbody y st log hyb hst)]
    rw [List.range_succ_eq_map, List.map_cons, List.map_map]
    have e : (fun k => c (y + k)) ∘ Nat.succ = fun k => c (y + 1 + k) := by
      funext k
      show c (y + (k + 1)) = c (y + 1 + k)
      congr 1
      omega
    rw [e]
    have hsplit : c (y + 0) :: List.map (fun k => c (y + 1 + k)) (List.range n)
        = [c y] ++ List.map (fun k => c (y + 1 + k)) (List.range n) := rfl
    rw [hsplit, finish_append]
    congr 1
    funext l
    exact ih (y + 1) (g y st) l (by omega) (hInv y st hyb hst)

/-! ## `save_png_to_file` as a script of fatal calls -/

theorem png_malloc_bind {β : Type} (size : Nat) (f : List uint8_t → M β) (env : Env)
    (log : List Call) :
    (png_malloc size >>= f) env log =
      finish (run_script env log [Call.png_malloc size])
        (fun l => f (malloc_bytes env.junk size) env l) := by
  rw [finish_cons, bind_apply]
  unfold png_malloc
  rw [bind_apply, png_call_apply, finish_cons]
  cases h : env.fails log.length <;>
    simp [finish_nil, bind_apply, fresh_bytes, pure_apply]

theorem png_malloc_table_bind {β : Type} (size : Nat) (f : List (List uint8_t) → M β)
    (env : Env) (log : List Call) :
    (png_malloc_table size >>= f) env log =
      finish (run_script env log [Call.png_malloc size])
        (fun l => f (List.replicate (size / 8) []) env l) := by
  rw [finish_cons, bind_apply]
  unfold png_malloc_table
  rw [bind_apply, png_call_apply, finish_cons]
  cases h : env.fails log.length <;>
    simp [finish_nil, pure_apply]

/-- One execution of the body of the row loop on a valid bitmap. -/
theorem save_png_row_eq (bitmap : bitmap_t) (hv : bitmap.valid) (y : Nat)
    (tbl : List (List uint8_t)) (env : Env) (log : List Call)
    (hy : y < bitmap.height) (htbl : tbl.length = bitmap.height) :
    save_png_row bitmap 3 y tbl env log =
      finish (run_script env log [Call.png_malloc (row_size bitmap 3)])
        (fun l => (Outcome.ret (tbl.set y (filled_row bitmap env.junk y)), l)) := by
  unfold save_png_row
  rw [png_malloc_bind]
  congr 1
  funext l
  rw [(filled_row_spec bitmap hv env.junk y hy).1]
  simp only
  rw [store_natCast tbl y _ (by omega)]
  rfl

theorem TableFilled_final (bitmap : bitmap_t) (junk : Nat → uint8_t) (tbl : List (List uint8_t))
    (h : TableFilled bitmap junk bitmap.height tbl) : tbl = filled_rows bitmap junk := by
  apply List.ext_getElem?
  intro k
  unfold filled_rows
  by_cases hk : k < bitmap.height
  · rw [h.2 k hk, List.getElem?_map, List.getElem?_range hk]
    rfl
  · rw [List.getElem?_eq_none (by rw [h.1]; omega),
      List.getElem?_eq_none (by simp; omega)]

theorem save_png_rows_bind {β : Type} (bitmap : bitmap_t) (hv : bitmap.valid)
    (f : List (List uint8_t) → M β) (env : Env) (log : List Call) :
    (save_png_rows bitmap 3 (List.replicate (bitmap.height * 8 % SIZE_MOD / 8) []) >>= f) env log =
      finish (run_script env log
          ((List.range bitmap.height).map (fun _ => Call.png_malloc (row_size bitmap 3))))
        (fun l => f (filled_rows bitmap env.junk) env l) := by
  have hlen : bitmap.height * 8 % SIZE_MOD / 8 = bitmap.height := by
    have := hv.2.2
    unfold SIZE_MOD
    omega
  apply finish_bind
  unfold save_png_rows
  have key := for_loop_M_script (save_png_row bitmap 3) bitmap.height env
    (TableFilled bitmap env.junk) (fun _ => Call.png_malloc (row_size bitmap 3))
    (fun y tbl => tbl.set y (filled_row bitmap env.junk y)) (filled_rows bitmap env.junk)
    (fun y tbl log hy hI => save_png_row_eq bitmap hv y tbl env log hy hI.1)
    (fun y tbl hy hI => by
      refine ⟨by rw [List.length_set]; exact hI.1, ?_⟩
      intro y1 hy1
      by_cases e : y1 = y
      · subst e
        rw [List.getElem?_set_self (by rw [hI.1]; exact hy)]
      · rw [List.getElem?_set_ne (by omega)]
        exact hI.2 y1 (by omega))
    (fun tbl hI => TableFilled_final bitmap env.junk tbl hI)
    bitmap.height 0 (List.replicate (bitmap.height * 8 % SIZE_MOD / 8) []) log
    (Nat.zero_add _)
    ⟨by rw [List.length_replicate, hlen], fun y1 hy1 => absurd hy1 (Nat.not_lt_zero y1)⟩
  exact key

theorem save_png_free_rows_bind {β : Type} (bitmap : bitmap_t) (f : Unit → M β) (env : Env)
    (log : List Call) :
    (save_png_free_rows bitmap >>= f) env log =
      finish (run_script env log
          ((List.range bitmap.height).map (fun y => Call.png_free (Ptr.row y))))
        (fun l => f () env l) := by
  apply finish_bind
  unfold save_png_free_rows
  have key := for_loop_M_script (fun y (_ : Unit) => png_call (Call.png_free (Ptr.row y)))
    bitmap.height env (fun _ _ => True) (fun y => Call.png_free (Ptr.row y))
    (fun _ _ => ()) ()
    (fun y st log _ _ => png_call_apply _ env log)
    (fun _ _ _ _ => trivial) (fun _ _ => rfl)
    bitmap.height 0 () log (Nat.zero_add _) trivial
  simp only [Nat.zero_add] at key
  exact key

theorem call_ignored_apply (c : Call) (env : Env) (log : List Call) :
    call_ignored c env log = (Outcome.ret (), log ++ [c]) := rfl

/-- On a valid bitmap `save_png_to_file` runs its script of fatal calls and,
when none of them failed, calls `fclose` and returns. -/
theorem save_png_to_file_eq (bitmap : bitmap_t) (hv : bitmap.valid) (path : String)
    (env : Env) (log : List Call) :
    save_png_to_file bitmap path env log =
      finish (run_script env log (png_script bitmap path (filled_rows bitmap env.junk)))
        (fun l => (Outcome.ret (), l ++ [Call.fclose])) := by
  unfold save_png_to_file png_script
  simp only [call_check_bind, png_call_bind, png_malloc_table_bind, save_png_rows_bind bitmap hv,
    save_png_free_rows_bind, finish_append, finish_cons, finish_nil, List.cons_append,
    List.nil_append, List.append_assoc, call_ignored_apply]

/-! ## What a run of fatal calls logs -/

theorem run_script_ok (env : Env) :
    ∀ (cs : List Call) (log : List Call),
      (∀ k, k < cs.length → env.fails (log.length + k) = false) →
      run_script env log cs = (false, log ++ cs) := by
  intro cs
  induction cs with
  | nil => intro log _; rw [run_script_nil, List.append_nil]
  | cons c cs ih =>
    intro log h
    have h0 := h 0 (by simp)
    rw [Nat.add_zero] at h0
    rw [run_script_cons, h0]
    simp only [Bool.false_eq_true, if_false]
    rw [ih (log ++ [c])]
    · rw [List.append_assoc]; rfl
    · intro k hk
      have := h (k + 1) (by simp; omega)
      rw [List.length_append, List.length_singleton]
      rw [← this]; congr 1; omega

theorem run_script_fail (env : Env) :
    ∀ (cs : List Call) (log : List Call) (k : Nat), k < cs.length →
      env.fails (log.length + k) = true →
      (∀ k1, k1 < k → env.fails (log.length + k1) = false) →
      run_script env log cs = (true, log ++ cs.take (k + 1)) := by
  intro cs
  induction cs with
  | nil => intro log k hk; simp at hk
  | cons c cs ih =>
    intro log k hk hf hmin
    rw [run_script_cons]
    cases k with
    | zero =>
      rw [Nat.add_zero] at hf
      rw [hf]
      simp
    | succ k =>
      have h0 := hmin 0 (by omega)
      rw [Nat.add_zero] at h0
      rw [h0]
      simp only [Bool.false_eq_true, if_false]
      rw [ih (log ++ [c]) k (by simpa using hk)]
      · rw [List.append_assoc]; rfl
      · rw [List.length_append, List.length_singleton, ← hf]; congr 1; omega
      · intro k1 hk1
        have := hmin (k1 + 1) (by omega)
        rw [List.length_append, List.length_singleton, ← this]; congr 1; omega

theorem run_script_log (env : Env) :
    ∀ (cs : List Call) (log : List Call),
      ∃ m, m ≤ cs.length ∧ (run_script env log cs).2 = log ++ cs.take m := by
  intro cs
  induction cs with
  | nil => intro log; exact ⟨0, Nat.le_refl _, by simp [run_script_nil]⟩
  | cons c cs ih =>
    intro log
    rw [run_script_cons]
    cases h : env.fails log.length with
    | true => exact ⟨1, by simp, by simp⟩
    | false =>
      obtain ⟨m, hm, e⟩ := ih (log ++ [c])
      refine ⟨m + 1, by simpa using hm, ?_⟩
      simp only [Bool.false_eq_true, if_false]
      rw [e, List.append_assoc]; rfl

/-- The first index at which `p` holds, below a given one at which it does. -/
theorem first_true (p : Nat → Bool) :
    ∀ k, p k = true → ∃ k0, k0 ≤ k ∧ p k0 = true ∧ ∀ k1, k1 < k0 → p k1 = false := by
  intro k
  induction k using Nat.strong_induction_on with
  | _ k ih =>
    intro hk
    by_cases h : ∃ k1, k1 < k ∧ p k1 = true
    · obtain ⟨k1, hk1, hp1⟩ := h
      obtain ⟨k0, hk0, hp0, hmin⟩ := ih k1 hk1 hp1
      exact ⟨k0, by omega, hp0, hmin⟩
    · refine ⟨k, Nat.le_refl k, hk, ?_⟩
      intro k1 hk1
      cases hp : p k1 with
      | false => rfl
      | true => exact absurd ⟨k1, hk1, hp⟩ h

theorem run_script_abort_iff (env : Env) (cs : List Call) (log : List Call) :
    (run_script env log cs).1 = true ↔ ∃ k, k < cs.length ∧ env.fails (log.length + k) = true := by
  constructor
  · intro h
    by_contra hne
    have hall : ∀ k, k < cs.length → env.fails (log.length + k) = false := by
      intro k hk
      cases hf : env.fails (log.length + k) with
      | false => rfl
      | true => exact absurd ⟨k, hk, hf⟩ hne
    rw [run_script_ok env cs log hall] at h
    exact absurd h (by simp)
  · rintro ⟨k, hk, hf⟩
    obtain ⟨k0, hk0, hf0, hmin⟩ := first_true (fun k => env.fails (log.length + k)) k hf
    rw [run_script_fail env cs log k0 (by omega) hf0 hmin]

theorem png_script_length (bitmap : bitmap_t) (path : String) (rows : List (List uint8_t)) :
    (png_script bitmap path rows).length = 2 * bitmap.height + 9 := by
  unfold png_script
  simp only [List.length_append, List.length_cons, List.length_nil, List.length_map,
    List.length_range]
  omega

theorem fclose_not_mem_png_script (bitmap : bitmap_t) (path : String)
    (rows : List (List uint8_t)) : Call.fclose ∉ png_script bitmap path rows := by
  unfold png_script
  simp

/-- The first `height + 8` calls of the script free nothing. -/
theorem png_free_not_mem_take (bitmap : bitmap_t) (path : String) (rows : List (List uint8_t))
    (m : Nat) (hm : m ≤ bitmap.height + 8) (p : Ptr) :
    Call.png_free p ∉ (png_script bitmap path rows).take m := by
  unfold png_script
  rw [List.append_assoc, List.take_append_of_le_length (by simp; omega)]
  intro hmem
  have := List.mem_of_mem_take hmem
  simp at this

/-- The only table of rows in the script is `rows`. -/
theorem png_set_rows_mem_png_script (bitmap : bitmap_t) (path : String)
    (rows r : List (List uint8_t)) (h : Call.png_set_rows r ∈ png_script bitmap path rows) :
    r = rows := by
  unfold png_script at h
  simpa using h

/-- The only header in the script is the one of the bitmap. -/
theorem png_set_IHDR_mem_png_script (bitmap : bitmap_t) (path : String)
    (rows : List (List uint8_t)) (a b : Nat) (d ct il cm fm : Int)
    (h : Call.png_set_IHDR a b d ct il cm fm ∈ png_script bitmap path rows) :
    a = bitmap.width % 4294967296 ∧ b = bitmap.height % 4294967296 ∧ d = 8 ∧
      ct = PNG_COLOR_TYPE_RGB ∧ il = PNG_INTERLACE_NONE ∧
      cm = PNG_COMPRESSION_TYPE_DEFAULT ∧ fm = PNG_FILTER_TYPE_DEFAULT := by
  unfold png_script at h
  simpa using h

/-! ## C7: `save_png_to_file` is fail-fast -/

/-- C7.  `save_png_to_file` is fail-fast.  For a bitmap that satisfies the
invariant of the data model, with `height` rows, the function makes
`2 * height + 9` calls that may fail (the open of the file, the two encoder
initialisations, and the encoder calls), numbered in program order from `0`,
followed by `fclose`.  (1) The process is aborted if and only if one of them
fails.  (2) When the open of `path` fails, the open is the only call made: no
encoder step is performed.  (3) When call `k` is the first to fail, the calls
made are exactly the calls `0 .. k` of the program: none of the later steps
is performed, `fclose` is not called, and when the failure comes before the
first `png_free` no row is freed.  (4) When no call fails the function
returns normally, having made all the calls and `fclose` last. -/
theorem save_png_to_file_fail_fast (bitmap : bitmap_t) (path : String) (env : Env)
    (hv : bitmap.valid) :
    ((save_png_to_file bitmap path env []).1 = Outcome.abort ↔
        ∃ k, k < 2 * bitmap.height + 9 ∧ env.fails k = true) ∧
    (env.fails 0 = true →
        save_png_to_file bitmap path env [] = (Outcome.abort, [Call.fopen path "wb"])) ∧
    (∀ k, k < 2 * bitmap.height + 9 → env.fails k = true →
        (∀ k1, k1 < k → env.fails k1 = false) →
        (save_png_to_file bitmap path env []).1 = Outcome.abort ∧
        (save_png_to_file bitmap path env []).2 =
          (png_script bitmap path (filled_rows bitmap env.junk)).take (k + 1) ∧
        (save_png_to_file bitmap path env []).2.length = k + 1 ∧
        Call.fclose ∉ (save_png_to_file bitmap path env []).2 ∧
        (k < bitmap.height + 8 →
          ∀ p, Call.png_free p ∉ (save_png_to_file bitmap path env []).2)) ∧
    ((∀ k, k < 2 * bitmap.height + 9 → env.fails k = false) →
        save_png_to_file bitmap path env [] =
          (Outcome.ret (), png_script bitmap path (filled_rows bitmap env.junk) ++ [Call.fclose])) := by
  have hlen := png_script_length bitmap path (filled_rows bitmap env.junk)
  have heq := save_png_to_file_eq bitmap hv path env []
  have hfail : ∀ k, k < 2 * bitmap.height + 9 → env.fails k = true →
      (∀ k1, k1 < k → env.fails k1 = false) →
      save_png_to_file bitmap path env [] =
        (Outcome.abort, (png_script bitmap path (filled_rows bitmap env.junk)).take (k + 1)) := by
    intro k hk hf hmin
    rw [heq, run_script_fail env _ [] k (by rw [hlen]; exact hk)
      (by simpa using hf) (by simpa using hmin)]
    simp [finish]
  have hok : (∀ k, k < 2 * bitmap.height + 9 → env.fails k = false) →
      save_png_to_file bitmap path env [] =
        (Outcome.ret (), png_script bitmap path (filled_rows bitmap env.junk) ++ [Call.fclose]) := by
    intro hall
    rw [heq, run_script_ok env _ [] (by
      intro k hk
      rw [hlen] at hk
      simpa using hall k hk)]
    simp [finish]
  refine ⟨?_, ?_, ?_, hok⟩
  · constructor
    · intro h
      by_contra hne
      have hall : ∀ k, k < 2 * bitmap.height + 9 → env.fails k = false := by
        intro k hk
        cases hf : env.fails k with
        | false => rfl
        | true => exact absurd ⟨k, hk, hf⟩ hne
      rw [hok hall] at h
      exact absurd h (by simp)
    · rintro ⟨k, hk, hf⟩
      obtain ⟨k0, hk0, hf0, hmin⟩ := first_true env.fails k hf
      rw [hfail k0 (by omega) hf0 hmin]
  · intro h0
    rw [hfail 0 (by omega) h0 (fun k1 hk1 => absurd hk1 (Nat.not_lt_zero k1))]
    rfl
  · intro k hk hf hmin
    rw [hfail k hk hf hmin]
    refine ⟨rfl, rfl, ?_, ?_, ?_⟩
    · simp only [List.length_take, hlen]
      omega
    · intro hmem
      exact fclose_not_mem_png_script bitmap path _ (List.mem_of_mem_take hmem)
    · intro hk8 p
      exact png_free_not_mem_take bitmap path _ (k + 1) (by omega) p

/-! ## C3: the rows handed to the encoder -/

/-- The table of finished rows of a valid bitmap: one row per image row, three
bytes per pixel, in the order red, green, blue. -/
theorem filled_rows_spec (bitmap : bitmap_t) (hv : bitmap.valid) (junk : Nat → uint8_t) :
    (filled_rows bitmap junk).length = bitmap.height ∧
    ∀ y, y < bitmap.height → ∃ row, (filled_rows bitmap junk)[y]? = some row ∧
      row.length = 3 * bitmap.width ∧
      ∀ x, x < bitmap.width → ∃ p, bitmap.pixels[y * bitmap.width + x]? = some p ∧
        row[3 * x]? = some p.red ∧ row[3 * x + 1]? = some p.green ∧
        row[3 * x + 2]? = some p.blue := by
  constructor
  · unfold filled_rows
    rw [List.length_map, List.length_range]
  · intro y hy
    refine ⟨filled_row bitmap junk y, ?_, ?_, ?_⟩
    · unfold filled_rows
      rw [List.getElem?_map, List.getElem?_range hy]
      rfl
    · exact (filled_row_spec bitmap hv junk y hy).2.1
    · exact (filled_row_spec bitmap hv junk y hy).2.2.2

/-- The log of `save_png_to_file` on a valid bitmap is an initial part of its
script, followed by `fclose` when the script was run to its end. -/
theorem save_png_to_file_log (bitmap : bitmap_t) (hv : bitmap.valid) (path : String)
    (env : Env) (log : List Call) (c : Call)
    (hc : c ∈ (save_png_to_file bitmap path env log).2) :
    c ∈ log ∨ c ∈ png_script bitmap path (filled_rows bitmap env.junk) ∨ c = Call.fclose := by
  rw [save_png_to_file_eq bitmap hv path env log] at hc
  obtain ⟨m, hm, e⟩ := run_script_log env (png_script bitmap path (filled_rows bitmap env.junk)) log
  unfold finish at hc
  cases hr : (run_script env log (png_script bitmap path (filled_rows bitmap env.junk))).1 with
  | true =>
    rw [hr] at hc
    simp only [if_true] at hc
    rw [e] at hc
    rcases List.mem_append.mp hc with h | h
    · exact Or.inl h
    · exact Or.inr (Or.inl (List.mem_of_mem_take h))
  | false =>
    rw [hr] at hc
    simp only [Bool.false_eq_true, if_false] at hc
    rw [e] at hc
    rcases List.mem_append.mp hc with h | h
    · rcases List.mem_append.mp h with h | h
      · exact Or.inl h
      · exact Or.inr (Or.inl (List.mem_of_mem_take h))
    · exact Or.inr (Or.inr (by simpa using h))

/-- C3 (amended).  The row builder of `save_png_to_file`, for every bitmap
whose pixel buffer has `width * height` entries and whose width and height
are at most `2^31` (every coordinate fits the `int` parameters of
`pixel_at`): every row table handed to the encoder (`png_set_rows`) has
exactly `height` rows, each row is exactly `3 * width` bytes, and bytes `3x`,
`3x+1`, `3x+2` of row `y` are the red, green and blue values of the pixel at
row-major offset `y * width + x`; and when no call fails such a table is
handed to the encoder. -/
theorem save_png_to_file_rows (bitmap : bitmap_t) (path : String) (env : Env)
    (hv : bitmap.valid) :
    (∀ rows, Call.png_set_rows rows ∈ (save_png_to_file bitmap path env []).2 →
      rows.length = bitmap.height ∧
      ∀ y, y < bitmap.height → ∃ row, rows[y]? = some row ∧
        row.length = 3 * bitmap.width ∧
        ∀ x, x < bitmap.width → ∃ p, bitmap.pixels[y * bitmap.width + x]? = some p ∧
          row[3 * x]? = some p.red ∧ row[3 * x + 1]? = some p.green ∧
          row[3 * x + 2]? = some p.blue) ∧
    ((∀ k, k < 2 * bitmap.height + 9 → env.fails k = false) →
      (save_png_to_file bitmap path env []).1 = Outcome.ret () ∧
      ∃ rows, Call.png_set_rows rows ∈ (save_png_to_file bitmap path env []).2) := by
  constructor
  · intro rows hmem
    rcases save_png_to_file_log bitmap hv path env [] _ hmem with h | h | h
    · exact absurd h (List.not_mem_nil _)
    · rw [png_set_rows_mem_png_script bitmap path _ rows h]
      exact filled_rows_spec bitmap hv env.junk
    · exact absurd h (by simp)
  · intro hall
    have hlen := png_script_length bitmap path (filled_rows bitmap env.junk)
    rw [save_png_to_file_eq bitmap hv path env [], run_script_ok env _ [] (by
      intro k hk
      rw [hlen] at hk
      simpa using hall k hk)]
    refine ⟨by simp [finish], filled_rows bitmap env.junk, ?_⟩
    simp [finish, png_script]

/-! ## C3: a bitmap wider than `int` -/

theorem finish_congr {α : Type} (r : Bool × List Call)
    (k1 k2 : List Call → Outcome α × List Call) (h : ∀ l, k1 l = k2 l) :
    finish r k1 = finish r k2 := by
  have e : k1 = k2 := funext h
  rw [e]

theorem save_png_row_body_wide (s : List uint8_t × Int) :
    save_png_row_body wide_bitmap 0 (0 + 2147483648) s = none := by
  have hp : pixel_at wide_bitmap (wrap_int ((0 + 2147483648 : Nat) : Int))
      (wrap_int ((0 : Nat) : Int)) = -2147483648 := by decide
  unfold save_png_row_body
  simp only [hp]
  rw [load_neg _ _ (by decide)]
  rfl

theorem save_png_row_cols_wide (st : List uint8_t × Int) :
    save_png_row_cols wide_bitmap 0 st = none :=
  for_loop_none (save_png_row_body wide_bitmap 0) wide_bitmap.width 0 st 2147483648
    (by decide) save_png_row_body_wide

theorem save_png_row_wide (tbl : List (List uint8_t)) (env : Env) (log : List Call) :
    save_png_row wide_bitmap 3 0 tbl env log =
      finish (run_script env log [Call.png_malloc (row_size wide_bitmap 3)])
        (fun l => (Outcome.undef, l)) := by
  unfold save_png_row
  rw [png_malloc_bind]
  apply finish_congr
  intro l
  rw [save_png_row_cols_wide]
  rfl

theorem save_png_rows_wide {β : Type} (tbl : List (List uint8_t)) (f : List (List uint8_t) → M β)
    (env : Env) (log : List Call) :
    (save_png_rows wide_bitmap 3 tbl >>= f) env log =
      finish (run_script env log [Call.png_malloc (row_size wide_bitmap 3)])
        (fun l => (Outcome.undef, l)) := by
  unfold save_png_rows
  have hh : wide_bitmap.height = 0 + 1 := rfl
  rw [hh, for_loop_M_succ, bind_apply, bind_apply, save_png_row_wide]
  cases h : env.fails log.length <;> simp [finish_cons, finish_nil, h]

/-- A run of `save_png_to_file` in which no call fails and the first row
cannot be filled inside its blocks. -/
theorem save_png_to_file_undef (bitmap : bitmap_t) (path : String) (env : Env)
    (hq : ∀ k, env.fails k = false)
    (hrows : ∀ (tbl : List (List uint8_t)) (f : List (List uint8_t) → M Unit) (log : List Call),
      (save_png_rows bitmap 3 tbl >>= f) env log =
        finish (run_script env log [Call.png_malloc (row_size bitmap 3)])
          (fun l => (Outcome.undef, l))) :
    save_png_to_file bitmap path env [] =
      (Outcome.undef, [Call.fopen path "wb", Call.png_create_write_struct,
        Call.png_create_info_struct,
        Call.png_set_IHDR (bitmap.width % 4294967296) (bitmap.height % 4294967296) 8
          PNG_COLOR_TYPE_RGB PNG_INTERLACE_NONE PNG_COMPRESSION_TYPE_DEFAULT
          PNG_FILTER_TYPE_DEFAULT,
        Call.png_malloc (bitmap.height * 8 % SIZE_MOD),
        Call.png_malloc (row_size bitmap 3)]) := by
  unfold save_png_to_file
  simp only [call_check_bind, png_call_bind, png_malloc_table_bind, hrows,
    finish_cons, finish_nil, hq, Bool.false_eq_true, if_false, List.nil_append,
    List.cons_append]

theorem save_png_to_file_wide :
    save_png_to_file wide_bitmap "out.png" quiet [] =
      (Outcome.undef, [Call.fopen "out.png" "wb", Call.png_create_write_struct,
        Call.png_create_info_struct,
        Call.png_set_IHDR (wide_bitmap.width % 4294967296) (wide_bitmap.height % 4294967296) 8
          PNG_COLOR_TYPE_RGB PNG_INTERLACE_NONE PNG_COMPRESSION_TYPE_DEFAULT
          PNG_FILTER_TYPE_DEFAULT,
        Call.png_malloc (wide_bitmap.height * 8 % SIZE_MOD),
        Call.png_malloc (row_size wide_bitmap 3)]) :=
  save_png_to_file_undef wide_bitmap "out.png" quiet (fun _ => rfl)
    (fun tbl f log => save_png_rows_wide tbl f quiet log)

/-- C3, counterexample.  The bitmap `wide_bitmap` has one row of `2^31 + 1`
pixels and a pixel buffer of `width * height` entries.  No call fails, yet
`save_png_to_file` does not hand any row table to the encoder: at column
`2^31` the coordinate passed to `pixel_at` is `-2^31` and the pixel is read
outside the buffer. -/
theorem save_png_to_file_rows_counterexample :
    wide_bitmap.pixels.length = wide_bitmap.width * wide_bitmap.height ∧
    (∀ k, quiet.fails k = false) ∧
    pixel_at wide_bitmap (wrap_int 2147483648) (wrap_int 0) = -2147483648 ∧
    (save_png_to_file wide_bitmap "out.png" quiet []).1 = Outcome.undef ∧
    ∀ rows, Call.png_set_rows rows ∉ (save_png_to_file wide_bitmap "out.png" quiet []).2 := by
  refine ⟨?_, fun _ => rfl, by decide, ?_, ?_⟩
  · show (List.replicate 2147483649 (⟨0, 0, 0⟩ : pixel_t)).length = 2147483649 * 1
    rw [List.length_replicate]
  · rw [save_png_to_file_wide]
  · intro rows
    rw [save_png_to_file_wide]
    simp

/-! ## `save_render` as a whole -/

theorem load_nil {α : Type} (off : Int) : load ([] : List α) off = none := by
  unfold load
  split <;> simp

theorem save_render_body_nil (img : List uint8_t) (image_size : image_size_t) (hw i j : Int)
    (st : bitmap_t × List Int) (hnil : st.1.pixels = []) :
    save_render_body img image_size hw i j st = none := by
  unfold save_render_body
  cases hr : load img (red_index image_size i j) with
  | none => rfl
  | some r =>
    simp only [Option.bind_eq_bind, Option.some_bind, hnil]
    unfold store_field
    rw [load_nil]
    rfl

theorem for_loop_int_first_none {σ : Type} (body : Int → σ → Option σ) (n : Nat) (x : Int)
    (st : σ) (h : body x st = none) : for_loop_int body (n + 1) x st = none := by
  rw [for_loop_int_succ, h]

theorem save_render_cols_nil (img : List uint8_t) (w h : Nat) (hw i : Int)
    (st : bitmap_t × List Int) (hw0 : 0 < w) (hnil : st.1.pixels = []) :
    save_render_cols img ⟨w, h⟩ hw i st = none := by
  obtain ⟨w1, rfl⟩ : ∃ w1, w = w1 + 1 := ⟨w - 1, by omega⟩
  have e : (image_size_t.mk ((w1 + 1 : Nat) : Int) (h : Int)).width.toNat = w1 + 1 :=
    Int.toNat_ofNat _
  unfold save_render_cols
  rw [e]
  exact for_loop_int_first_none _ w1 0 st (save_render_body_nil img _ hw i 0 st hnil)

theorem save_render_rows_nil (img : List uint8_t) (w h : Nat) (hw : Int)
    (st : bitmap_t × List Int) (hw0 : 0 < w) (hh0 : 0 < h) (hnil : st.1.pixels = []) :
    save_render_rows img ⟨w, h⟩ hw st = none := by
  obtain ⟨h1, rfl⟩ : ∃ h1, h = h1 + 1 := ⟨h - 1, by omega⟩
  have e : (image_size_t.mk (w : Int) ((h1 + 1 : Nat) : Int)).height.toNat = h1 + 1 :=
    Int.toNat_ofNat _
  unfold save_render_rows
  rw [e]
  exact for_loop_int_first_none _ h1 0 st (save_render_cols_nil img w (h1 + 1) hw 0 st hw0 hnil)

/-- With the null pointer for `bitmap.pixels` the first store is outside any
block. -/
theorem save_render_fill_nil (img : List uint8_t) (w h : Nat) (hw0 : 0 < w) (hh0 : 0 < h) :
    save_render_fill [] img ⟨w, h⟩ = none := by
  unfold save_render_fill
  exact save_render_rows_nil img w h _ _ hw0 hh0 rfl

theorem malloc_apply (size : Nat) (env : Env) (log : List Call) :
    malloc size env log =
      (Outcome.ret (if env.fails log.length then [] else malloc_pixels env.junk size),
        log ++ [Call.malloc size]) := by
  unfold malloc
  rw [bind_apply]
  cases h : env.fails log.length <;>
    simp [call, h, bind_apply, fresh_bytes, pure_apply]

/-- The filled bitmap satisfies the invariant that `save_png_to_file` needs. -/
theorem Filled_valid (img : List uint8_t) (w h k : Nat) (st : bitmap_t × List Int)
    (hwh : w * h ≤ INT_MAX) (hw0 : 0 < w) (hh0 : 0 < h) (hst : Filled img w h k st) :
    st.1.valid := by
  have hM : w * h ≤ 2147483647 := hwh
  have hwle : w ≤ w * h := Nat.le_mul_of_pos_right w hh0
  have hhle : h ≤ w * h := Nat.le_mul_of_pos_left h hw0
  obtain ⟨h1, h2, h3, _, _⟩ := hst
  refine ⟨by rw [h3, h1, h2], by rw [h1]; omega, by rw [h2]; omega⟩

/-- Under its precondition `save_render` allocates the bitmap, fills it and
calls `save_png_to_file` on it; when `malloc` fails the behaviour is
undefined. -/
theorem save_render_eq (filename : String) (img : List uint8_t) (w h : Nat) (env : Env)
    (log : List Call) (hw0 : 0 < w) (hh0 : 0 < h) (hwh : w * h ≤ INT_MAX)
    (himg : img.length = 3 * (w * h)) :
    ∃ st, save_render_fill (malloc_pixels env.junk (3 * (w * h))) img ⟨w, h⟩ = some st ∧
      Filled img w h (w * h) st ∧
      save_render filename img ⟨w, h⟩ env log =
        if env.fails log.length then (Outcome.undef, log ++ [Call.malloc (3 * (w * h))])
        else save_png_to_file st.1 filename env (log ++ [Call.malloc (3 * (w * h))]) := by
  have hsz := malloc_pixels_length env.junk w h hwh hw0 hh0
  obtain ⟨st, hfill, hF⟩ := save_render_fill_Filled (malloc_pixels env.junk (3 * (w * h))) img w h
    hwh hw0 hh0 himg hsz.2
  refine ⟨st, hfill, hF, ?_⟩
  unfold save_render
  show (malloc (save_render_alloc_size (to_size_t (w : Int)) (to_size_t (h : Int))) >>= _) env log
    = _
  rw [bind_apply, malloc_apply, hsz.1]
  cases hf : env.fails log.length with
  | true =>
    simp only [if_true]
    rw [save_render_fill_nil img w h hw0 hh0]
    rfl
  | false =>
    simp only [Bool.false_eq_true, if_false]
    rw [hfill]

/-! ## The claims about `pixel_at` and the fill loop -/

theorem getElem?_getD (img : List uint8_t) (n : Nat) (h : n < img.length) :
    img[n]? = some (img.getD n 0) := by
  rw [← load_natCast]
  exact load_getD img n h

/-- What the filled bitmap holds at row `i`, column `j`. -/
theorem Filled_pixel (img : List uint8_t) (w h i j : Nat) (st : bitmap_t × List Int)
    (hwh : w * h ≤ INT_MAX) (himg : img.length = 3 * (w * h)) (hi : i < h) (hj : j < w)
    (hst : Filled img w h (w * h) st) :
    pixel_at st.1 j i = ((i * w + j : Nat) : Int) ∧
    ∃ p, st.1.pixels[i * w + j]? = some p ∧ load st.1.pixels (pixel_at st.1 j i) = some p ∧
      img[j * h + i]? = some p.red ∧ img[j * h + i + h * w]? = some p.green ∧
      img[j * h + i + 2 * h * w]? = some p.blue := by
  have hk : i * w + j < w * h := offset_lt w h i j hi hj
  have b : j * h + i < h * w := offset_lt h w j i hj hi
  have c : h * w = w * h := Nat.mul_comm h w
  have c2 : w * i = i * w := Nat.mul_comm w i
  have c3 : 2 * h * w = 2 * (h * w) := Nat.mul_assoc 2 h w
  have hM : w * h ≤ 2147483647 := hwh
  have hp : pixel_at st.1 (j : Int) (i : Int) = ((i * w + j : Nat) : Int) := by
    rw [pixel_at_natCast st.1 j i (by rw [hst.1]; omega) (by omega), hst.1, c2]
    push_cast; rfl
  refine ⟨hp, transposed img w h (i * w + j), hst.2.2.2.2 _ hk, ?_, ?_, ?_, ?_⟩
  · rw [hp, load_natCast]
    exact hst.2.2.2.2 _ hk
  · simp only [transposed, offset_div w i j hj, offset_mod w i j hj]
    exact getElem?_getD img _ (by omega)
  · simp only [transposed, offset_div w i j hj, offset_mod w i j hj]
    exact getElem?_getD img _ (by omega)
  · simp only [transposed, offset_div w i j hj, offset_mod w i j hj]
    rw [c3]
    exact getElem?_getD img _ (by omega)

/-- C1.  The transpose of `save_render`: for every `width > 0`, `height > 0`
with `width * height` representable as a 32-bit `int`, and every source
buffer of exactly `3 * width * height` bytes, the fill loop (run on the block
that `malloc` returned, whatever it contains) ends, and afterwards the bitmap
pixel at `(x = j, y = i)`, at row-major offset `i * width + j`, has
red `= buffer[j*height + i]`, green `= buffer[j*height + i + height*width]`
and blue `= buffer[j*height + i + 2*height*width]`, for every `i < height`
and `j < width`. -/
theorem save_render_transpose (junk : Nat → uint8_t) (img : List uint8_t) (w h : Nat)
    (hw0 : 0 < w) (hh0 : 0 < h) (hwh : w * h ≤ INT_MAX) (himg : img.length = 3 * w * h) :
    ∃ bitmap slots,
      save_render_fill
        (malloc_pixels junk (save_render_alloc_size (to_size_t w) (to_size_t h)))
        img ⟨w, h⟩ = some (bitmap, slots) ∧
      bitmap.width = w ∧ bitmap.height = h ∧
      ∀ i j, i < h → j < w →
        pixel_at bitmap j i = ((i * w + j : Nat) : Int) ∧
        ∃ p, bitmap.pixels[i * w + j]? = some p ∧
          load bitmap.pixels (pixel_at bitmap j i) = some p ∧
          img[j * h + i]? = some p.red ∧
          img[j * h + i + h * w]? = some p.green ∧
          img[j * h + i + 2 * h * w]? = some p.blue := by
  have himg1 : img.length = 3 * (w * h) := by rw [himg, Nat.mul_assoc]
  have hsz := malloc_pixels_length junk w h hwh hw0 hh0
  obtain ⟨st, hfill, hF⟩ := save_render_fill_Filled (malloc_pixels junk (3 * (w * h))) img w h
    hwh hw0 hh0 himg1 hsz.2
  refine ⟨st.1, st.2, ?_, hF.1, hF.2.1, ?_⟩
  · rw [hsz.1, hfill]
  · intro i j hi hj
    exact Filled_pixel img w h i j st hwh himg1 hi hj hF

/-- C4.  `pixel_at` is a row-major offset computation.  For every bitmap that
satisfies the invariant of the data model (its buffer has `width * height`
pixels, and as an object in memory it has fewer than `2^64` bytes) and every
in-bounds `x`, `y`, it returns the pixel at offset `y * width + x` from the
start of the buffer, which is a pixel of the buffer; and for `x1 < x2` at a
fixed `y` the two returned addresses are exactly `x2 - x1` pixels apart. -/
theorem pixel_at_row_major (bitmap : bitmap_t) (x y : Int)
    (hlen : bitmap.pixels.length = bitmap.width * bitmap.height)
    (hsize : sizeof_pixel_t * bitmap.pixels.length < SIZE_MOD)
    (hx0 : 0 ≤ x) (hx : x < bitmap.width) (hy0 : 0 ≤ y) (hy : y < bitmap.height) :
    pixel_at bitmap x y = y * bitmap.width + x ∧
    load bitmap.pixels (pixel_at bitmap x y) = bitmap.pixels[(y * bitmap.width + x).toNat]? ∧
    (∃ p, load bitmap.pixels (pixel_at bitmap x y) = some p) ∧
    ∀ x1 x2 : Int, x1 < x2 → pixel_at bitmap x2 y - pixel_at bitmap x1 y = x2 - x1 := by
  obtain ⟨xn, rfl⟩ := Int.eq_ofNat_of_zero_le hx0
  obtain ⟨yn, rfl⟩ := Int.eq_ofNat_of_zero_le hy0
  have hxn : xn < bitmap.width := by exact_mod_cast hx
  have hyn : yn < bitmap.height := by exact_mod_cast hy
  have hk : yn * bitmap.width + xn < bitmap.width * bitmap.height :=
    offset_lt bitmap.width bitmap.height yn xn hyn hxn
  have c2 : bitmap.width * yn = yn * bitmap.width := Nat.mul_comm _ _
  have hs : 3 * bitmap.pixels.length < 18446744073709551616 := hsize
  have hhle : bitmap.height ≤ bitmap.width * bitmap.height :=
    Nat.le_mul_of_pos_left _ (by omega)
  have hp : pixel_at bitmap (xn : Int) (yn : Int) = ((yn * bitmap.width + xn : Nat) : Int) := by
    rw [pixel_at_natCast bitmap xn yn (by omega) (by omega), c2]
    push_cast; rfl
  have e : (yn : Int) * (bitmap.width : Int) + (xn : Int)
      = ((yn * bitmap.width + xn : Nat) : Int) := by push_cast; rfl
  refine ⟨by rw [hp, e], ?_, ?_, ?_⟩
  · rw [hp, e, load_natCast, Int.toNat_ofNat]
  · rw [hp, load_natCast]
    exact ⟨_, List.getElem?_eq_getElem (by omega)⟩
  · intro x1 x2 _
    unfold pixel_at
    omega

/-- C10.  The plane-offset arithmetic of `save_render` is done in 32-bit
`int` before widening.  With `int` products wrapping modulo `2^32`: for every
`width, height > 0` with `width * height <= 2^31 - 1` the value `hw` and the
index `j * height + i` computed by `save_render` are the mathematical
`height * width` and `j * height + i`; for `width = height = 65536`, where
`width * height > 2^31 - 1`, the computed `hw` is `0`, not `height * width`,
so that the green and blue plane offsets `hw` and `2 * hw` used are `0`. -/
theorem save_render_int_arithmetic (w h i j : Nat) (_hw0 : 0 < w) (_hh0 : 0 < h)
    (hwh : w * h ≤ INT_MAX) (hi : i < h) (hj : j < w) :
    (save_render_hw ⟨w, h⟩ = (h : Int) * (w : Int) ∧
      red_index ⟨w, h⟩ i j = (j : Int) * (h : Int) + (i : Int)) ∧
    ((0 : Int) < 65536 ∧ INT_MAX < 65536 * 65536 ∧
      save_render_hw ⟨65536, 65536⟩ = 0 ∧
      save_render_hw ⟨65536, 65536⟩ ≠ 65536 * 65536 ∧
      wrap_llong (2 * save_render_hw ⟨65536, 65536⟩) = 0 ∧
      wrap_llong (2 * save_render_hw ⟨65536, 65536⟩) ≠ 2 * (65536 * 65536)) := by
  refine ⟨⟨?_, ?_⟩, by decide⟩
  · rw [save_render_hw_eq w h hwh]; push_cast; rfl
  · rw [red_index_eq w h i j hwh hi hj]; push_cast; rfl

/-! ## Index safety, and the slots written by the fill loop -/

theorem save_png_to_file_defined (bitmap : bitmap_t) (hv : bitmap.valid) (path : String)
    (env : Env) (log : List Call) :
    (save_png_to_file bitmap path env log).1 ≠ Outcome.undef := by
  rw [save_png_to_file_eq bitmap hv path env log]
  unfold finish
  split <;> simp

/-- C9.  Index safety under the stated precondition.  For every `width > 0`,
`height > 0` with `width * height` representable as a 32-bit `int`, a source
buffer of exactly `3 * width * height` bytes and a bitmap buffer of exactly
`width * height` pixels: every source index read by `save_render` lies in
`[0, 3 * width * height)`, every pixel offset computed by `pixel_at` in
`save_render` and (with the coordinates converted to `int`) in
`save_png_to_file` lies in `[0, width * height)`, the fill loop never leaves
its blocks, and the run of `save_png_to_file` on the filled bitmap is never
undefined. -/
theorem save_render_index_safety (img : List uint8_t) (pixels : List pixel_t) (w h : Nat)
    (filename : String) (hw0 : 0 < w) (hh0 : 0 < h) (hwh : w * h ≤ INT_MAX)
    (himg : img.length = 3 * w * h) (hpx : pixels.length = w * h) :
    (∀ i j, i < h → j < w →
      (0 ≤ red_index ⟨w, h⟩ i j ∧ red_index ⟨w, h⟩ i j < ((3 * w * h : Nat) : Int)) ∧
      (0 ≤ green_index ⟨w, h⟩ (save_render_hw ⟨w, h⟩) i j ∧
        green_index ⟨w, h⟩ (save_render_hw ⟨w, h⟩) i j < ((3 * w * h : Nat) : Int)) ∧
      (0 ≤ blue_index ⟨w, h⟩ (save_render_hw ⟨w, h⟩) i j ∧
        blue_index ⟨w, h⟩ (save_render_hw ⟨w, h⟩) i j < ((3 * w * h : Nat) : Int)) ∧
      ∀ bitmap : bitmap_t, bitmap.width = w → bitmap.height = h →
        (0 ≤ pixel_at bitmap j i ∧ pixel_at bitmap j i < ((w * h : Nat) : Int)) ∧
        (0 ≤ pixel_at bitmap (wrap_int j) (wrap_int i) ∧
          pixel_at bitmap (wrap_int j) (wrap_int i) < ((w * h : Nat) : Int))) ∧
    ∃ st, save_render_fill pixels img ⟨w, h⟩ = some st ∧ st.1.pixels.length = w * h ∧
      ∀ env log, (save_png_to_file st.1 filename env log).1 ≠ Outcome.undef := by
  have himg1 : img.length = 3 * (w * h) := by rw [himg, Nat.mul_assoc]
  have hM : w * h ≤ 2147483647 := hwh
  have c : h * w = w * h := Nat.mul_comm h w
  have c3 : 3 * w * h = 3 * (w * h) := Nat.mul_assoc 3 w h
  have hwle : w ≤ w * h := Nat.le_mul_of_pos_right w hh0
  have hhle : h ≤ w * h := Nat.le_mul_of_pos_left h hw0
  constructor
  · intro i j hi hj
    have b : j * h + i < h * w := offset_lt h w j i hj hi
    have hk : i * w + j < w * h := offset_lt w h i j hi hj
    rw [save_render_hw_eq w h hwh, red_index_eq w h i j hwh hi hj,
      green_index_eq w h i j hwh hi hj, blue_index_eq w h i j hwh hi hj]
    refine ⟨by omega, by omega, by omega, ?_⟩
    intro bitmap hbw hbh
    have c2 : bitmap.width * i = i * w := by rw [hbw]; exact Nat.mul_comm w i
    have hp : pixel_at bitmap (j : Int) (i : Int) = ((i * w + j : Nat) : Int) := by
      rw [pixel_at_natCast bitmap j i (by omega) (by omega), c2]
      push_cast; rfl
    rw [wrap_int_natCast j (by omega), wrap_int_natCast i (by omega), hp]
    omega
  · obtain ⟨st, hfill, hF⟩ := save_render_fill_Filled pixels img w h hwh hw0 hh0 himg1 hpx
    exact ⟨st, hfill, hF.2.2.1, fun env log =>
      save_png_to_file_defined st.1 (Filled_valid img w h _ st hwh hw0 hh0 hF) filename env log⟩

theorem count_range_cast (n k : Nat) (hk : k < n) :
    ((List.range n).map Int.ofNat).count (k : Int) = 1 := by
  apply List.count_eq_one_of_mem
  · exact (List.nodup_range n).map (fun a b hab => Int.ofNat.inj hab)
  · exact List.mem_map.mpr ⟨k, List.mem_range.mpr hk, rfl⟩

/-- The row-major offset is a bijection from the coordinates onto the slots. -/
theorem offset_bijective (w h k : Nat) (hk : k < w * h) :
    ∃ i j, i < h ∧ j < w ∧ i * w + j = k ∧
      ∀ i1 j1, i1 < h → j1 < w → i1 * w + j1 = k → i1 = i ∧ j1 = j := by
  have hw0 : 0 < w := by
    rcases Nat.eq_zero_or_pos w with e | e
    · rw [e, Nat.zero_mul] at hk; exact absurd hk (Nat.not_lt_zero k)
    · exact e
  refine ⟨k / w, k % w, ?_, Nat.mod_lt k hw0, ?_, ?_⟩
  · exact (Nat.div_lt_iff_lt_mul hw0).mpr (by rw [Nat.mul_comm h w]; exact hk)
  · rw [Nat.mul_comm]; exact Nat.div_add_mod k w
  · intro i1 j1 _ hj1 e
    rw [← e]
    exact ⟨(offset_div w i1 j1 hj1).symm, (offset_mod w i1 j1 hj1).symm⟩

/-- C6 (amended).  The bitmap is filled completely before it is encoded: for
every `width > 0`, `height > 0` with `width * height` representable as a
32-bit `int` and a source buffer of `3 * width * height` bytes, the fill loop
of `save_render` ends and has stored to the slots `0, 1, ..., width*height - 1`
of the bitmap buffer in this order, each exactly once; the slot of row `i`,
column `j` is `i * width + j`, and this map is a bijection from
`[0,height) x [0,width)` onto `[0, width*height)`. -/
theorem save_render_fill_each_slot_once (junk : Nat → uint8_t) (img : List uint8_t) (w h : Nat)
    (hw0 : 0 < w) (hh0 : 0 < h) (hwh : w * h ≤ INT_MAX) (himg : img.length = 3 * w * h) :
    ∃ bitmap slots,
      save_render_fill
        (malloc_pixels junk (save_render_alloc_size (to_size_t w) (to_size_t h)))
        img ⟨w, h⟩ = some (bitmap, slots) ∧
      bitmap.pixels.length = w * h ∧
      slots = (List.range (w * h)).map Int.ofNat ∧
      (∀ k, k < w * h → slots.count (k : Int) = 1) ∧
      (∀ z, z ∈ slots → 0 ≤ z ∧ z < ((w * h : Nat) : Int)) ∧
      (∀ i j, i < h → j < w → pixel_at bitmap j i = ((i * w + j : Nat) : Int)) ∧
      (∀ k, k < w * h → ∃ i j, i < h ∧ j < w ∧ i * w + j = k ∧
        ∀ i1 j1, i1 < h → j1 < w → i1 * w + j1 = k → i1 = i ∧ j1 = j) := by
  have himg1 : img.length = 3 * (w * h) := by rw [himg, Nat.mul_assoc]
  have hsz := malloc_pixels_length junk w h hwh hw0 hh0
  obtain ⟨st, hfill, hF⟩ := save_render_fill_Filled (malloc_pixels junk (3 * (w * h))) img w h
    hwh hw0 hh0 himg1 hsz.2
  refine ⟨st.1, st.2, ?_, hF.2.2.1, hF.2.2.2.1, ?_, ?_, ?_, ?_⟩
  · rw [hsz.1, hfill]
  · intro k hk
    rw [hF.2.2.2.1]
    exact count_range_cast (w * h) k hk
  · intro z hz
    rw [hF.2.2.2.1] at hz
    obtain ⟨k, hk, rfl⟩ := List.mem_map.mp hz
    have := List.mem_range.mp hk
    constructor
    · exact Int.ofNat_nonneg k
    · exact Int.ofNat_lt.mpr this
  · intro i j hi hj
    exact (Filled_pixel img w h i j st hwh himg1 hi hj hF).1
  · intro k hk
    exact offset_bijective w h k hk

/-- With `width = height = 65536` the index `j * height + i` of the red byte
overflows `int` at `i = 0`, `j = 32768`: the load is outside the buffer. -/
theorem save_render_body_overflow (img : List uint8_t) (hw : Int) (s : bitmap_t × List Int) :
    save_render_body img ⟨65536, 65536⟩ hw 0 (0 + ((32768 : Nat) : Int)) s = none := by
  have hr : red_index ⟨65536, 65536⟩ 0 (0 + ((32768 : Nat) : Int)) = -2147483648 := by decide
  unfold save_render_body
  rw [hr, load_neg _ _ (by decide)]
  rfl

theorem save_render_fill_overflow (pixels : List pixel_t) (img : List uint8_t) :
    save_render_fill pixels img ⟨65536, 65536⟩ = none := by
  have e1 : (image_size_t.mk 65536 65536).height.toNat = 65535 + 1 := rfl
  have e2 : (image_size_t.mk 65536 65536).width.toNat = 65536 := rfl
  unfold save_render_fill save_render_rows
  rw [e1]
  apply for_loop_int_first_none
  unfold save_render_cols
  rw [e2]
  exact for_loop_int_none _ 65536 0 _ 32768 (by decide)
    (fun s => save_render_body_overflow img _ s)

/-- C6, counterexample.  For `width = height = 65536` and a source buffer of
`3 * width * height` bytes the fill loop does not store to every slot: the
index of the red byte overflows `int` in row `0` at column `32768`, and the
loop leaves the source buffer. -/
theorem save_render_fill_each_slot_once_counterexample :
    (0 : Int) < 65536 ∧
    (List.replicate (3 * 65536 * 65536) (0 : uint8_t)).length = 3 * 65536 * 65536 ∧
    red_index ⟨65536, 65536⟩ 0 32768 = -2147483648 ∧
    ¬ ∃ bitmap slots,
      save_render_fill
        (malloc_pixels (fun _ => 0) (save_render_alloc_size (to_size_t 65536) (to_size_t 65536)))
        (List.replicate (3 * 65536 * 65536) (0 : uint8_t)) ⟨65536, 65536⟩ = some (bitmap, slots) ∧
      ∀ k, k < 65536 * 65536 → slots.count (k : Int) = 1 := by
  refine ⟨by decide, List.length_replicate _ _, by decide, ?_⟩
  rintro ⟨bitmap, slots, hfill, _⟩
  rw [save_render_fill_overflow] at hfill
  exact absurd hfill (by simp)

/-! ## The 2 x 2 example, and `save_render` end to end -/

/-- The bitmap that `save_render` builds from the 2 x 2 example buffer has
the pixel `(10, 50, 90)` at `(0, 0)`. -/
theorem save_render_example_pixel (junk : Nat → uint8_t) :
    ∃ st, save_render_fill
        (malloc_pixels junk (save_render_alloc_size (to_size_t 2) (to_size_t 2)))
        [10, 20, 30, 40, 50, 60, 70, 80, 90, 100, 110, 120] ⟨2, 2⟩ = some st ∧
      load st.1.pixels (pixel_at st.1 0 0) = some ⟨10, 50, 90⟩ := by
  have hsz := malloc_pixels_length junk 2 2 (by decide) (by decide) (by decide)
  obtain ⟨st, hfill, hF⟩ := save_render_fill_Filled (malloc_pixels junk (3 * (2 * 2)))
    [10, 20, 30, 40, 50, 60, 70, 80, 90, 100, 110, 120] 2 2 (by decide) (by decide) (by decide)
    rfl hsz.2
  have hfill1 : save_render_fill
      (malloc_pixels junk (save_render_alloc_size (to_size_t 2) (to_size_t 2)))
      [10, 20, 30, 40, 50, 60, 70, 80, 90, 100, 110, 120] ⟨2, 2⟩ = some st := by
    have e := hsz.1
    have e1 : to_size_t ((2 : Nat) : Int) = to_size_t 2 := rfl
    rw [e1] at e
    rw [e]
    exact hfill
  refine ⟨st, hfill1, ?_⟩
  obtain ⟨_, p, _, hload, hr, hg, hb⟩ := Filled_pixel
    [10, 20, 30, 40, 50, 60, 70, 80, 90, 100, 110, 120] 2 2 0 0 st (by decide) rfl
    (by decide) (by decide) hF
  have hload1 : load st.1.pixels (pixel_at st.1 0 0) = some p := hload
  rw [hload1]
  obtain ⟨r, g, b⟩ := p
  have hr1 : r = 10 := by
    have : (some (10 : uint8_t)) = some r := hr
    exact (Option.some.inj this).symm
  have hg1 : g = 50 := by
    have : (some (50 : uint8_t)) = some g := hg
    exact (Option.some.inj this).symm
  have hb1 : b = 90 := by
    have : (some (90 : uint8_t)) = some b := hb
    exact (Option.some.inj this).symm
  rw [hr1, hg1, hb1]

/-- C5 (amended).  For `width = 2`, `height = 2` and the buffer
`[10,20,30,40, 50,60,70,80, 90,100,110,120]` the bitmap that `save_render`
builds has pixel `(0,0)` = (red 10, green 50, blue 90): the green and blue
bytes are those at index `0 + height*width = 4` and `0 + 2*height*width = 8`. -/
theorem save_render_example (junk : Nat → uint8_t) :
    ∃ st, save_render_fill
        (malloc_pixels junk (save_render_alloc_size (to_size_t 2) (to_size_t 2)))
        [10, 20, 30, 40, 50, 60, 70, 80, 90, 100, 110, 120] ⟨2, 2⟩ = some st ∧
      load st.1.pixels (pixel_at st.1 0 0) = some ⟨10, 50, 90⟩ :=
  save_render_example_pixel junk

/-- C5, counterexample.  For `width = 2`, `height = 2` and the buffer
`[10,20,30,40, 50,60,70,80, 90,100,110,120]` the pixel `(0,0)` of the bitmap
that `save_render` builds is not (red 10, green 60, blue 110). -/
theorem save_render_example_counterexample :
    ¬ ∃ st, save_render_fill
        (malloc_pixels (fun _ => 0) (save_render_alloc_size (to_size_t 2) (to_size_t 2)))
        [10, 20, 30, 40, 50, 60, 70, 80, 90, 100, 110, 120] ⟨2, 2⟩ = some st ∧
      load st.1.pixels (pixel_at st.1 0 0) = some ⟨10, 60, 110⟩ := by
  rintro ⟨st, hfill, hload⟩
  obtain ⟨st1, hfill1, hload1⟩ := save_render_example_pixel (fun _ => 0)
  rw [hfill1] at hfill
  have e : st1 = st := Option.some.inj hfill
  rw [e, hload] at hload1
  exact absurd hload1 (by decide)

/-! ## `save_render` end to end -/

/-- The calls of a run of `save_render` under its precondition: `malloc`,
then calls of the script of `save_png_to_file` on the filled bitmap, then
possibly `fclose`; when no call fails, all of them, and the run returns. -/
theorem save_render_log (filename : String) (img : List uint8_t) (w h : Nat) (env : Env)
    (hw0 : 0 < w) (hh0 : 0 < h) (hwh : w * h ≤ INT_MAX) (himg : img.length = 3 * (w * h)) :
    ∃ st, Filled img w h (w * h) st ∧
      (∀ c, c ∈ (save_render filename img ⟨w, h⟩ env []).2 →
        c = Call.malloc (3 * (w * h)) ∨
        c ∈ png_script st.1 filename (filled_rows st.1 env.junk) ∨ c = Call.fclose) ∧
      Call.malloc (3 * (w * h)) ∈ (save_render filename img ⟨w, h⟩ env []).2 ∧
      ((∀ k, env.fails k = false) →
        save_render filename img ⟨w, h⟩ env [] =
          (Outcome.ret (), [Call.malloc (3 * (w * h))] ++
            png_script st.1 filename (filled_rows st.1 env.junk) ++ [Call.fclose])) := by
  obtain ⟨st, _, hF, heq⟩ := save_render_eq filename img w h env [] hw0 hh0 hwh himg
  simp only [List.nil_append] at heq
  have hv : st.1.valid := Filled_valid img w h _ st hwh hw0 hh0 hF
  refine ⟨st, hF, ?_, ?_, ?_⟩
  · intro c hc
    rw [heq] at hc
    cases hf : env.fails ([] : List Call).length with
    | true =>
      rw [hf] at hc
      simp only [if_true, List.mem_singleton] at hc
      exact Or.inl hc
    | false =>
      rw [hf] at hc
      simp only [Bool.false_eq_true, if_false] at hc
      rcases save_png_to_file_log st.1 hv filename env _ c hc with h1 | h1 | h1
      · simp only [List.mem_singleton] at h1
        exact Or.inl h1
      · exact Or.inr (Or.inl h1)
      · exact Or.inr (Or.inr h1)
  · rw [heq]
    cases hf : env.fails ([] : List Call).length with
    | true => simp
    | false =>
      simp only [Bool.false_eq_true, if_false]
      rw [save_png_to_file_eq st.1 hv filename env]
      obtain ⟨m, _, e⟩ := run_script_log env (png_script st.1 filename (filled_rows st.1 env.junk))
        [Call.malloc (3 * (w * h))]
      unfold finish
      split <;> simp [e]
  · intro hall
    rw [heq, hall]
    simp only [Bool.false_eq_true, if_false]
    rw [save_png_to_file_eq st.1 hv filename env,
      run_script_ok env _ _ (fun k _ => hall _)]
    simp [finish]

/-- C2.  End to end, for all valid `width, height > 0` (`width * height`
representable as a 32-bit `int`) and a buffer of exactly
`3 * width * height` bytes, stated over what `save_render` hands to the
encoder: every header handed over (`png_set_IHDR`) carries `width` and
`height` unchanged; every row table handed over (`png_set_rows`) has exactly
`height` rows of `3 * width` bytes, and row `i` holds at bytes `3j`, `3j+1`,
`3j+2` the source bytes `buffer[j*height+i]`, `buffer[j*height+i+h*w]`,
`buffer[j*height+i+2*h*w]`; and when no call fails the run returns, having
handed over the header and the rows and called `png_write_png`. -/
theorem save_render_end_to_end (filename : String) (img : List uint8_t) (w h : Nat) (env : Env)
    (hw0 : 0 < w) (hh0 : 0 < h) (hwh : w * h ≤ INT_MAX) (himg : img.length = 3 * w * h) :
    (∀ a b d ct il cm fm,
      Call.png_set_IHDR a b d ct il cm fm ∈ (save_render filename img ⟨w, h⟩ env []).2 →
      a = w ∧ b = h) ∧
    (∀ rows, Call.png_set_rows rows ∈ (save_render filename img ⟨w, h⟩ env []).2 →
      rows.length = h ∧
      ∀ i, i < h → ∃ row, rows[i]? = some row ∧ row.length = 3 * w ∧
        ∀ j, j < w → ∃ r g b,
          img[j * h + i]? = some r ∧ img[j * h + i + h * w]? = some g ∧
          img[j * h + i + 2 * h * w]? = some b ∧
          row[3 * j]? = some r ∧ row[3 * j + 1]? = some g ∧ row[3 * j + 2]? = some b) ∧
    ((∀ k, env.fails k = false) →
      (save_render filename img ⟨w, h⟩ env []).1 = Outcome.ret () ∧
      Call.png_set_IHDR w h 8 PNG_COLOR_TYPE_RGB PNG_INTERLACE_NONE
        PNG_COMPRESSION_TYPE_DEFAULT PNG_FILTER_TYPE_DEFAULT
          ∈ (save_render filename img ⟨w, h⟩ env []).2 ∧
      (∃ rows, Call.png_set_rows rows ∈ (save_render filename img ⟨w, h⟩ env []).2) ∧
      Call.png_write_png PNG_TRANSFORM_IDENTITY ∈ (save_render filename img ⟨w, h⟩ env []).2) := by
  have himg1 : img.length = 3 * (w * h) := by rw [himg, Nat.mul_assoc]
  have hM : w * h ≤ 2147483647 := hwh
  have hwle : w ≤ w * h := Nat.le_mul_of_pos_right w hh0
  have hhle : h ≤ w * h := Nat.le_mul_of_pos_left h hw0
  obtain ⟨st, hF, hlog, _, hok⟩ := save_render_log filename img w h env hw0 hh0 hwh himg1
  have hv : st.1.valid := Filled_valid img w h _ st hwh hw0 hh0 hF
  have hwm : st.1.width % 4294967296 = w := by rw [hF.1]; omega
  have hhm : st.1.height % 4294967296 = h := by rw [hF.2.1]; omega
  refine ⟨?_, ?_, ?_⟩
  · intro a b d ct il cm fm hmem
    rcases hlog _ hmem with h1 | h1 | h1
    · exact absurd h1 (by simp)
    · have := png_set_IHDR_mem_png_script st.1 filename _ a b d ct il cm fm h1
      rw [hwm, hhm] at this
      exact ⟨this.1, this.2.1⟩
    · exact absurd h1 (by simp)
  · intro rows hmem
    rcases hlog _ hmem with h1 | h1 | h1
    · exact absurd h1 (by simp)
    · rw [png_set_rows_mem_png_script st.1 filename _ rows h1]
      obtain ⟨hlen, hrows⟩ := filled_rows_spec st.1 hv env.junk
      rw [hF.2.1] at hlen hrows
      refine ⟨hlen, ?_⟩
      intro i hi
      obtain ⟨row, hrow, hrl, hpx⟩ := hrows i hi
      rw [hF.1] at hrl hpx
      refine ⟨row, hrow, hrl, ?_⟩
      intro j hj
      obtain ⟨p, hp, hr, hg, hb⟩ := hpx j hj
      obtain ⟨_, q, hq, _, hqr, hqg, hqb⟩ := Filled_pixel img w h i j st hwh himg1 hi hj hF
      rw [hq] at hp
      have e : q = p := Option.some.inj hp
      rw [e] at hqr hqg hqb
      exact ⟨p.red, p.green, p.blue, hqr, hqg, hqb, hr, hg, hb⟩
    · exact absurd h1 (by simp)
  · intro hall
    rw [hok hall]
    refine ⟨rfl, ?_, ⟨filled_rows st.1 env.junk, ?_⟩, ?_⟩
    · rw [← hwm, ← hhm]
      simp [png_script]
    · simp [png_script]
    · simp [png_script]

/-- C8, what the code does.  Under its precondition `save_render` calls
`malloc` for the bitmap buffer and never calls `free`, whatever the
environment: when no call fails it returns after the `fclose` of
`save_png_to_file`, and the bitmap buffer is still allocated. -/
theorem save_render_never_frees (filename : String) (img : List uint8_t) (w h : Nat) (env : Env)
    (hw0 : 0 < w) (hh0 : 0 < h) (hwh : w * h ≤ INT_MAX) (himg : img.length = 3 * w * h) :
    Call.malloc (3 * (w * h)) ∈ (save_render filename img ⟨w, h⟩ env []).2 ∧
    (∀ p, Call.free p ∉ (save_render filename img ⟨w, h⟩ env []).2) ∧
    ((∀ k, env.fails k = false) →
      (save_render filename img ⟨w, h⟩ env []).1 = Outcome.ret () ∧
      (save_render filename img ⟨w, h⟩ env []).2.getLast? = some Call.fclose) := by
  have himg1 : img.length = 3 * (w * h) := by rw [himg, Nat.mul_assoc]
  obtain ⟨st, _, hlog, hmalloc, hok⟩ := save_render_log filename img w h env hw0 hh0 hwh himg1
  refine ⟨hmalloc, ?_, ?_⟩
  · intro p hmem
    rcases hlog _ hmem with h1 | h1 | h1
    · exact absurd h1 (by simp)
    · unfold png_script at h1
      simp at h1
    · exact absurd h1 (by simp)
  · intro hall
    rw [hok hall]
    exact ⟨rfl, List.getLast?_concat _⟩

/-! ## The theorems at concrete inputs -/

/-- C1 at the 2 x 2 example: the fill loop ends and the pixel of row `1`,
column `0` holds the bytes `1`, `5` and `9` of the buffer. -/
theorem save_render_transpose_witness :
    (0 < 2 ∧ 0 < 2 ∧ 2 * 2 ≤ INT_MAX ∧ example_img.length = 3 * 2 * 2) ∧
    ∃ bitmap slots,
      save_render_fill
        (malloc_pixels (fun _ => 0) (save_render_alloc_size (to_size_t ((2 : Nat) : Int))
          (to_size_t ((2 : Nat) : Int))))
        example_img ⟨((2 : Nat) : Int), ((2 : Nat) : Int)⟩ = some (bitmap, slots) ∧
      ∃ p, bitmap.pixels[1 * 2 + 0]? = some p ∧
        example_img[0 * 2 + 1]? = some p.red ∧
        example_img[0 * 2 + 1 + 2 * 2]? = some p.green ∧
        example_img[0 * 2 + 1 + 2 * 2 * 2]? = some p.blue :=
  ⟨⟨by decide, by decide, by decide, by decide⟩,
    match save_render_transpose (fun _ => 0) example_img 2 2 (by decide) (by decide) (by decide)
      (by decide) with
    | ⟨bitmap, slots, hfill, _, _, hpix⟩ =>
      match hpix 1 0 (by decide) (by decide) with
      | ⟨_, p, hp, _, hr, hg, hb⟩ => ⟨bitmap, slots, hfill, p, hp, hr, hg, hb⟩⟩

/-- C2 at the 2 x 2 example, no call failing: the run returns and the header
`2 x 2` is handed to the encoder. -/
theorem save_render_end_to_end_witness :
    (0 < 2 ∧ 0 < 2 ∧ 2 * 2 ≤ INT_MAX ∧ example_img.length = 3 * 2 * 2) ∧
    (save_render "out.png" example_img ⟨((2 : Nat) : Int), ((2 : Nat) : Int)⟩ quiet []).1
      = Outcome.ret () ∧
    Call.png_set_IHDR 2 2 8 PNG_COLOR_TYPE_RGB PNG_INTERLACE_NONE
      PNG_COMPRESSION_TYPE_DEFAULT PNG_FILTER_TYPE_DEFAULT
        ∈ (save_render "out.png" example_img ⟨((2 : Nat) : Int), ((2 : Nat) : Int)⟩ quiet []).2 :=
  ⟨⟨by decide, by decide, by decide, by decide⟩,
    ((save_render_end_to_end "out.png" example_img 2 2 quiet (by decide) (by decide) (by decide)
      (by decide)).2.2 (fun _ => rfl)).1,
    ((save_render_end_to_end "out.png" example_img 2 2 quiet (by decide) (by decide) (by decide)
      (by decide)).2.2 (fun _ => rfl)).2.1⟩

/-- C3 at a bitmap of one row of two pixels, no call failing: the run returns
and a row table is handed to the encoder. -/
theorem save_png_to_file_rows_witness :
    small_bitmap.valid ∧
    (save_png_to_file small_bitmap "out.png" quiet []).1 = Outcome.ret () ∧
    ∃ rows, Call.png_set_rows rows ∈ (save_png_to_file small_bitmap "out.png" quiet []).2 :=
  ⟨⟨rfl, by decide, by decide⟩,
    (save_png_to_file_rows small_bitmap "out.png" quiet ⟨rfl, by decide, by decide⟩).2
      (fun _ _ => rfl)⟩

/-- C4 at a bitmap of one row of two pixels, `x = 1`, `y = 0`. -/
theorem pixel_at_row_major_witness :
    (small_bitmap.pixels.length = small_bitmap.width * small_bitmap.height ∧
      sizeof_pixel_t * small_bitmap.pixels.length < SIZE_MOD) ∧
    pixel_at small_bitmap 1 0 = 0 * (small_bitmap.width : Int) + 1 :=
  ⟨⟨rfl, by decide⟩,
    (pixel_at_row_major small_bitmap 1 0 rfl (by decide) (by decide) (by decide) (by decide)
      (by decide)).1⟩

/-- C6 at the 2 x 2 example: the slots stored to are `0, 1, 2, 3`. -/
theorem save_render_fill_each_slot_once_witness :
    (0 < 2 ∧ 0 < 2 ∧ 2 * 2 ≤ INT_MAX ∧ example_img.length = 3 * 2 * 2) ∧
    ∃ bitmap slots,
      save_render_fill
        (malloc_pixels (fun _ => 0) (save_render_alloc_size (to_size_t ((2 : Nat) : Int))
          (to_size_t ((2 : Nat) : Int))))
        example_img ⟨((2 : Nat) : Int), ((2 : Nat) : Int)⟩ = some (bitmap, slots) ∧
      slots = (List.range (2 * 2)).map Int.ofNat :=
  ⟨⟨by decide, by decide, by decide, by decide⟩,
    match save_render_fill_each_slot_once (fun _ => 0) example_img 2 2 (by decide) (by decide)
      (by decide) (by decide) with
    | ⟨bitmap, slots, hfill, _, hslots, _⟩ => ⟨bitmap, slots, hfill, hslots⟩⟩

/-- C7 at a bitmap of one row of two pixels: when no call fails the function
returns after `fclose`; when the open fails nothing else is called. -/
theorem save_png_to_file_fail_fast_witness :
    small_bitmap.valid ∧
    save_png_to_file small_bitmap "out.png" quiet [] =
      (Outcome.ret (),
        png_script small_bitmap "out.png" (filled_rows small_bitmap quiet.junk) ++ [Call.fclose]) ∧
    save_png_to_file small_bitmap "out.png" { fails := fun k => k == 0, junk := fun _ => 0 } [] =
      (Outcome.abort, [Call.fopen "out.png" "wb"]) :=
  ⟨⟨rfl, by decide, by decide⟩,
    (save_png_to_file_fail_fast small_bitmap "out.png" quiet ⟨rfl, by decide, by decide⟩).2.2.2
      (fun _ _ => rfl),
    (save_png_to_file_fail_fast small_bitmap "out.png" { fails := fun k => k == 0, junk := fun _ => 0 }
      ⟨rfl, by decide, by decide⟩).2.1 rfl⟩

/-- C8 at a 1 x 1 image, no call failing: `save_render` calls `malloc (3)`,
then the calls of `save_png_to_file`, and returns after `fclose`; `free` is
not called. -/
theorem save_render_never_frees_witness :
    (0 < 1 ∧ 0 < 1 ∧ 1 * 1 ≤ INT_MAX ∧ [(1 : uint8_t), 2, 3].length = 3 * 1 * 1) ∧
    save_render "out.png" [1, 2, 3] ⟨1, 1⟩ quiet [] =
      (Outcome.ret (), [Call.malloc 3, Call.fopen "out.png" "wb", Call.png_create_write_struct,
        Call.png_create_info_struct, Call.png_set_IHDR 1 1 8 2 0 0 0, Call.png_malloc 8,
        Call.png_malloc 3, Call.png_init_io, Call.png_set_rows [[1, 2, 3]],
        Call.png_write_png 0, Call.png_free (Ptr.row 0), Call.png_free Ptr.row_pointers,
        Call.fclose]) ∧
    (∀ p, Call.free p ∉
      (save_render "out.png" [1, 2, 3] ⟨((1 : Nat) : Int), ((1 : Nat) : Int)⟩ quiet []).2) :=
  ⟨⟨by decide, by decide, by decide, by decide⟩, by decide,
    (save_render_never_frees "out.png" [1, 2, 3] 1 1 quiet (by decide) (by decide) (by decide)
      (by decide)).2.1⟩

/-- C9 at the 2 x 2 example, row `1`, column `1`: the red index is `3`. -/
theorem save_render_index_safety_witness :
    (0 < 2 ∧ 0 < 2 ∧ 2 * 2 ≤ INT_MAX ∧ example_img.length = 3 * 2 * 2 ∧
      (List.replicate 4 (⟨0, 0, 0⟩ : pixel_t)).length = 2 * 2) ∧
    (0 ≤ red_index ⟨((2 : Nat) : Int), ((2 : Nat) : Int)⟩ ((1 : Nat) : Int) ((1 : Nat) : Int) ∧
      red_index ⟨((2 : Nat) : Int), ((2 : Nat) : Int)⟩ ((1 : Nat) : Int) ((1 : Nat) : Int)
        < ((3 * 2 * 2 : Nat) : Int)) :=
  ⟨⟨by decide, by decide, by decide, by decide, by decide⟩,
    ((save_render_index_safety example_img (List.replicate 4 ⟨0, 0, 0⟩) 2 2 "out.png"
      (by decide) (by decide) (by decide) (by decide) (by decide)).1 1 1
        (by decide) (by decide)).1⟩

/-- C10 at `width = 3`, `height = 2`, `i = 1`, `j = 2`. -/
theorem save_render_int_arithmetic_witness :
    (0 < 3 ∧ 0 < 2 ∧ 3 * 2 ≤ INT_MAX ∧ 1 < 2 ∧ 2 < 3) ∧
    save_render_hw ⟨((3 : Nat) : Int), ((2 : Nat) : Int)⟩ = ((2 : Nat) : Int) * ((3 : Nat) : Int) ∧
    red_index ⟨((3 : Nat) : Int), ((2 : Nat) : Int)⟩ ((1 : Nat) : Int) ((2 : Nat) : Int)
      = ((2 : Nat) : Int) * ((2 : Nat) : Int) + ((1 : Nat) : Int) :=
  ⟨⟨by decide, by decide, by decide, by decide, by decide⟩,
    (save_render_int_arithmetic 3 2 1 2 (by decide) (by decide) (by decide) (by decide)
      (by decide)).1⟩

end RayTraceUtil
